import Mathlib

/-!
Verification development for the wishly product-scraping engine.

The TypeScript sources are shallowly embedded: strings are `List Char`,
JavaScript numbers are `ℚ` (with `none : Option ℚ` standing for `NaN`),
JS `undefined`/`null` are `Option`, and the stateful worker/storage pair
is explicit state passing over a `Store` value.  Library primitives the
code relies on (`parseFloat`, `String.prototype.split/replace/lastIndexOf`,
regular-expression tests) are modelled by executable Lean functions that
follow the JavaScript semantics on the character ranges the code feeds
them.
-/

namespace Wishly

/-- Strings are modelled as character lists so that the string-processing
proofs can proceed by structural induction. -/
abbrev LStr := List Char

/-- Conversion from Lean string literals to the model's string type. -/
def lc (s : String) : LStr := s.toList

/-- JavaScript whitespace (the subset that can actually appear in the
scraped price texts: space, tab, CR, LF). -/
def jsWhitespace (c : Char) : Bool :=
  c = ' ' || c = '\t' || c = '\n' || c = '\r'

/-- Lower-casing, for the `/i` regular-expression flags and
`toLowerCase()` calls. -/
def toLowerL (s : LStr) : LStr := s.map Char.toLower

/-- `haystack.includes(needle)` on strings. -/
def containsSub (haystack needle : LStr) : Bool :=
  decide (needle <:+: haystack)

/-- Numeric value of a digit string (most significant digit first). -/
def digitsValue (l : LStr) : ℕ :=
  l.foldl (fun n c => 10 * n + (c.toNat - 48)) 0

/-- `String.prototype.split(sep)` for a single-character separator.
JS semantics: `"".split(",") = [""]`. -/
def jsSplit (t : Char) : LStr → List LStr
  | [] => [[]]
  | c :: rest =>
    let r := jsSplit t rest
    if c = t then [] :: r
    else
      match r with
      | [] => [[c]]
      | h :: tl => (c :: h) :: tl

/-- `String.prototype.replace(t, r)` with a plain-string pattern:
replaces only the first occurrence. -/
def jsReplaceFirst (t r : Char) : LStr → LStr
  | [] => []
  | c :: rest => if c = t then r :: rest else c :: jsReplaceFirst t r rest

/-- `String.prototype.lastIndexOf(t)`: index of the last occurrence,
`-1` when absent. -/
def jsLastIndexOf : LStr → Char → ℤ
  | [], _ => -1
  | c :: rest, t =>
    let r := jsLastIndexOf rest t
    if r ≥ 0 then r + 1
    else if c = t then 0 else -1

/-- Mantissa part of JavaScript `parseFloat`: an integer-digit run,
optionally followed by `.` and a fraction-digit run; everything after the
parsed prefix is ignored; `none` models `NaN`.  (Exponent notation never
occurs in the price texts this code base feeds to `parseFloat` and is not
modelled.) -/
def jsParseMantissa (s : LStr) : Option ℚ :=
  let ip := s.takeWhile Char.isDigit
  let r1 := s.dropWhile Char.isDigit
  match r1 with
  | '.' :: r2 =>
    let fp := r2.takeWhile Char.isDigit
    if ip.isEmpty && fp.isEmpty then none
    else some ((digitsValue ip : ℚ) + (digitsValue fp : ℚ) / 10 ^ fp.length)
  | _ => if ip.isEmpty then none else some ((digitsValue ip : ℚ))

/-- Optional sign handling of `parseFloat`. -/
def jsParseSigned : LStr → Option ℚ
  | '-' :: r => (jsParseMantissa r).map Neg.neg
  | '+' :: r => jsParseMantissa r
  | r => jsParseMantissa r

/-- JavaScript `parseFloat` (leading whitespace skipped, `none` = `NaN`). -/
def jsParseFloat (s : LStr) : Option ℚ :=
  jsParseSigned (s.dropWhile jsWhitespace)

/-- `Math.round`: round half toward positive infinity. -/
def mathRound (q : ℚ) : ℤ := ⌊q + 1/2⌋

/-- `String.prototype.trim()` (both ends). -/
def trimL (s : LStr) : LStr :=
  ((s.dropWhile jsWhitespace).reverse.dropWhile jsWhitespace).reverse

/-- Insertion-ordered deduplication: `Array.from(new Set(xs))`. -/
def jsSetDedupAux (seen : List LStr) : List LStr → List LStr
  | [] => []
  | x :: xs =>
    if x ∈ seen then jsSetDedupAux seen xs
    else x :: jsSetDedupAux (x :: seen) xs

/-- `Array.from(new Set(xs))`: keep the first occurrence of each element. -/
def jsSetDedup (l : List LStr) : List LStr := jsSetDedupAux [] l

end Wishly

namespace Wishly.Scraper

/-!  Embedding of `src/server/scraper.ts`. -/

/-- `normalizePrice` from `src/server/scraper.ts` (the identical inlined
copies at lines 237–270 and 419–452): decide which of `.`/`,` is the
decimal separator and hand the cleaned text to `parseFloat`. -/
def normalizePrice (s0 : LStr) : Option ℚ :=
  -- priceStr = priceStr.replace(/\s/g, "")
  let s := s0.filter (fun c => ¬ jsWhitespace c)
  let hasComma := s.contains ','
  let hasDot := s.contains '.'
  if hasComma && hasDot then
    if jsLastIndexOf s ',' > jsLastIndexOf s '.' then
      -- strip all dots (grouping), first comma becomes the decimal point
      jsParseFloat (jsReplaceFirst ',' '.' (s.filter (fun c => c ≠ '.')))
    else
      -- strip all commas (grouping)
      jsParseFloat (s.filter (fun c => c ≠ ','))
  else if hasComma then
    let parts := jsSplit ',' s
    if parts.length = 2 && ((parts.getD 1 []).length ≤ 2) then
      jsParseFloat (jsReplaceFirst ',' '.' s)
    else
      jsParseFloat (s.filter (fun c => c ≠ ','))
  else if hasDot then
    let parts := jsSplit '.' s
    if parts.length = 2 && ((parts.getD 1 []).length ≤ 2) then
      jsParseFloat s
    else if parts.length ≥ 2 then
      jsParseFloat (s.filter (fun c => c ≠ '.'))
    else
      jsParseFloat s
  else
    jsParseFloat s

/-- A character matched by the `[\d,.\s]` class of the price regexes. -/
def priceRunChar (c : Char) : Bool :=
  c.isDigit || c = ',' || c = '.' || jsWhitespace c

/-- Accumulator pass of `runsOf` (`cur` is the current run, reversed). -/
def runsOfAux (p : Char → Bool) : LStr → LStr → List LStr
  | [], cur => if cur.isEmpty then [] else [cur.reverse]
  | c :: rest, cur =>
    if p c then runsOfAux p rest (c :: cur)
    else if cur.isEmpty then runsOfAux p rest []
    else cur.reverse :: runsOfAux p rest []

/-- Maximal nonempty runs of characters satisfying `p`:
the result of `text.match(/[...]+/g)`. -/
def runsOf (p : Char → Bool) (s : LStr) : List LStr := runsOfAux p s []

/-- The five sale keywords of
`/(?:sale|discounted|final|now|special)[:\s]*[\$£€¥₽]*\s*([\d,.\s]+)/i`. -/
def saleKeywords : List LStr :=
  [lc "sale", lc "discounted", lc "final", lc "now", lc "special"]

/-- The `[\$£€¥₽]` currency-symbol class. -/
def currencySymbolChar (c : Char) : Bool :=
  c = '$' || c = '£' || c = '€' || c = '¥' || c = '₽'

/-- Attempt of the sale-price regex at one start position of the (already
lower-cased) text: keyword, then `[:\s]*`, then `[\$£€¥₽]*`, then `\s*`,
then the captured `[\d,.\s]+` run (greedy matching; the engine's full
backtracking differs only on texts with a keyword followed by no digits). -/
def saleTryAt (s : LStr) : Option LStr :=
  match saleKeywords.findSome?
      (fun k => if k.isPrefixOf s then some (s.drop k.length) else none) with
  | none => none
  | some r0 =>
    let r1 := r0.dropWhile (fun c => c = ':' || jsWhitespace c)
    let r2 := r1.dropWhile currencySymbolChar
    let r3 := r2.dropWhile jsWhitespace
    let cap := r3.takeWhile priceRunChar
    if cap.isEmpty then none else some cap

/-- First match of the sale-price regex over all start positions. -/
def saleScan : LStr → Option LStr
  | [] => none
  | c :: rest =>
    match saleTryAt (c :: rest) with
    | some cap => some cap
    | none => saleScan rest

/-- `priceText.match(/(?:sale|discounted|final|now|special).../i)`,
returning the first capture group. -/
def salePriceMatch (t : LStr) : Option LStr := saleScan (toLowerL t)

/-- Attempt of `/\(-?\d+%\)[^\d]*([\d,.\s]+)/` at one start position. -/
def pctTryAt : LStr → Option LStr
  | '(' :: r =>
    let r1 := match r with | '-' :: rr => rr | _ => r
    let ds := r1.takeWhile Char.isDigit
    if ds.isEmpty then none
    else
      match r1.drop ds.length with
      | '%' :: ')' :: r2 =>
        let r3 := r2.dropWhile (fun c => ¬ c.isDigit)
        if r3.isEmpty then none else some (r3.takeWhile priceRunChar)
      | _ => none
  | _ => none

/-- First match of the percentage-discount regex over all start positions. -/
def pctScan : LStr → Option LStr
  | [] => none
  | c :: rest =>
    match pctTryAt (c :: rest) with
    | some cap => some cap
    | none => pctScan rest

/-- `priceText.match(/\(-?\d+%\)[^\d]*([\d,.\s]+)/)`, first capture group. -/
def percentageDiscountMatch (t : LStr) : Option LStr := pctScan t

/-- The `price` variable of `scrapeWithCheerio`/`processScrapedData` before
`Math.round`: sale match first, then percentage-discount match, then the
last `[\d,.\s]+` run; `some 0` when no run exists, `none` when the chosen
text parses to `NaN`. -/
def pipelinePrice (t : LStr) : Option ℚ :=
  match salePriceMatch t with
  | some cap => (normalizePrice cap).map (· * 100)
  | none =>
    match percentageDiscountMatch t with
    | some cap => (normalizePrice cap).map (· * 100)
    | none =>
      match (runsOf priceRunChar t).getLast? with
      | some last => (normalizePrice last).map (· * 100)
      | none => some 0

/-- The stored price: `Math.round(price)` (`none` = `NaN`). -/
def pipelinePriceRounded (t : LStr) : Option ℤ :=
  (pipelinePrice t).map mathRound

/-- The currency `if/else if` chain of `scrapeWithCheerio` (lines
472–485); `metaCur` is the `meta[product:price:currency]` /
`itemprop=priceCurrency` default, `"USD"` when absent.  The `includes`
checks are case-sensitive, as in the source. -/
def detectCurrency (t : LStr) (metaCur : Option LStr) : LStr :=
  let base := metaCur.getD (lc "USD")
  if containsSub t (lc "$") && ¬ containsSub t (lc "HK$") && ¬ containsSub t (lc "A$") then lc "USD"
  else if containsSub t (lc "HK$") then lc "HKD"
  else if containsSub t (lc "A$") then lc "AUD"
  else if containsSub t (lc "£") then lc "GBP"
  else if containsSub t (lc "€") then lc "EUR"
  else if containsSub t (lc "¥") || containsSub t (lc "CN¥") || containsSub t (lc "CNY") then lc "CNY"
  else if containsSub t (lc "₽") || containsSub t (lc "RUB") then lc "RUB"
  else if containsSub t (lc "CAD") || containsSub t (lc "C$") then lc "CAD"
  else if containsSub t (lc "SGD") || containsSub t (lc "S$") then lc "SGD"
  else base

/-- Empty-string-falsy `a || b`. -/
def jsOrStr (a b : LStr) : LStr := if a.isEmpty then b else a

/-- A nonempty digit run covering the whole string (`/^\d+$/`). -/
def isDigits1 (l : LStr) : Bool := ¬ l.isEmpty && l.all Char.isDigit

/-- `/^\d+(\.\d+)?$/`. -/
def isDecimalNum (l : LStr) : Bool :=
  let ip := l.takeWhile Char.isDigit
  if ip.isEmpty then false
  else
    match l.drop ip.length with
    | [] => true
    | '.' :: rest => isDigits1 rest
    | _ => false

/-- `/^\d+\s*-\s*\d+$/`. -/
def isRangeNum (l : LStr) : Bool :=
  let ip := l.takeWhile Char.isDigit
  if ip.isEmpty then false
  else
    match (l.drop ip.length).dropWhile jsWhitespace with
    | '-' :: r2 => isDigits1 (r2.dropWhile jsWhitespace)
    | _ => false

/-- `/^(UK|US|EU|FR|IT|JP)?\s*\d+(\.\d+)?$/i` (argument already
lower-cased). -/
def isSizeWithRegion (low : LStr) : Bool :=
  let codes := [lc "uk", lc "us", lc "eu", lc "fr", lc "it", lc "jp"]
  let rest :=
    match codes.findSome?
        (fun c => if c.isPrefixOf low then some (low.drop 2) else none) with
    | some r => r
    | none => low
  isDecimalNum (rest.dropWhile jsWhitespace)

/-- `/^\d+["']$/`. -/
def isInchSize (l : LStr) : Bool :=
  let ip := l.takeWhile Char.isDigit
  ¬ ip.isEmpty &&
    (match l.drop ip.length with
     | [c] => c = '"' || c = '\''
     | _ => false)

/-- `/^(XXS|XS|S|M|L|XL|XXL|XXXL|\d+XL)$/i` (argument already
lower-cased). -/
def isLetterSize (low : LStr) : Bool :=
  [lc "xxs", lc "xs", lc "s", lc "m", lc "l", lc "xl", lc "xxl", lc "xxxl"].contains low
    || (let ip := low.takeWhile Char.isDigit
        ¬ ip.isEmpty && low.drop ip.length == lc "xl")

/-- The `looksLikeSize` alternation of `cleanSizes` (lines 184–191);
`/^(xx?[sl]|[sml]|x{1,3}l|one size|free size|os)$/i` is expanded to its
finite word list. -/
def looksLikeSize (t : LStr) : Bool :=
  let low := toLowerL t
  [lc "xs", lc "xl", lc "xxs", lc "xxl", lc "s", lc "m", lc "l", lc "xxxl",
   lc "one size", lc "free size", lc "os"].contains low
    || isDigits1 t
    || isDecimalNum t
    || isRangeNum t
    || isSizeWithRegion low
    || isInchSize t
    || isLetterSize low

/-- `invalidSizeTexts` of `cleanSizes`. -/
def invalidSizeTexts : List LStr :=
  [lc "select size", lc "choose size", lc "pick size", lc "size guide",
   lc "size chart", lc "add to cart", lc "add to bag", lc "click to enlarge",
   lc "view details", lc "quick view", lc "buy now", lc "shop now", lc "sold out",
   lc "select", lc "choose", lc "customise", lc "customize", lc "find your size",
   lc "size & fit", lc "details", lc "delivery", lc "returns"]

/-- `cleanSizes` (`src/server/scraper.ts` lines 161–201). -/
def cleanSizes (rawSizes : List LStr) : List LStr :=
  rawSizes.foldl
    (fun acc s0 =>
      let s := trimL s0
      let low := toLowerL s
      if ¬ s.isEmpty && s.length ≤ 15
          && ¬ invalidSizeTexts.any (fun inv => containsSub low inv)
          && ¬ acc.contains s
          && looksLikeSize s
      then acc ++ [s] else acc)
    []

/-- `invalidColorTexts` of `cleanColors`. -/
def invalidColorTexts : List LStr :=
  [lc "select color", lc "choose color", lc "pick color", lc "add to cart",
   lc "add to bag", lc "click to enlarge", lc "view details", lc "quick view",
   lc "buy now", lc "shop now", lc "sold out", lc "select", lc "choose",
   lc "select colour", lc "choose colour"]

/-- `cleanColors` (`src/server/scraper.ts` lines 203–232). -/
def cleanColors (rawColors : List LStr) : List LStr :=
  rawColors.foldl
    (fun acc c0 =>
      let c := trimL c0
      let low := toLowerL c
      if 2 ≤ c.length && c.length ≤ 50
          && ¬ invalidColorTexts.any (fun inv => low == inv)
          && ¬ acc.contains c
          && ¬ (¬ c.isEmpty && c.all (fun d => d.isDigit || d = '.'))
          && ¬ isLetterSize low
      then acc ++ [c] else acc)
    []

/-- Token of the stock regular expressions: a literal, a `\s*` gap, or a
`[^"]*` gap. -/
inductive PatTok
  | lit (s : LStr)
  | ws
  | nq

/-- Match a token sequence at the head of `s` (the `\s*`/`[^"]*` gaps try
every length up to the run of admissible characters, as the regex engine
does). -/
def matchToksFrom : List PatTok → LStr → Bool
  | [], _ => true
  | .lit l :: ts, s => l.isPrefixOf s && matchToksFrom ts (s.drop l.length)
  | .ws :: ts, s =>
    let m := (s.takeWhile jsWhitespace).length
    (List.range (m + 1)).any (fun i => matchToksFrom ts (s.drop i))
  | .nq :: ts, s =>
    let m := (s.takeWhile (fun c => c ≠ '"')).length
    (List.range (m + 1)).any (fun i => matchToksFrom ts (s.drop i))

/-- `pattern.test(s)`: match at any start position. -/
def testPat (toks : List PatTok) (s : LStr) : Bool :=
  s.tails.any (matchToksFrom toks)

/-- `outOfStockPatterns` of `scrapeWithCheerio`/`processScrapedData`
(all carry the `/i` flag, so literals are stored lower-cased and tested
against the lower-cased document). -/
def outOfStockPatterns : List (List PatTok) :=
  [[.lit (lc "out of stock")],
   [.lit (lc "sold out")],
   [.lit (lc "currently unavailable")],
   [.lit (lc "not available")],
   [.lit (lc "no longer available")],
   [.lit (lc "discontinued")],
   [.lit (lc "\"availability\":"), .ws, .lit (lc "\"outofstock\"")],
   [.lit (lc "\"availability\":"), .ws, .lit (lc "\"soldout\"")],
   [.lit (lc "class=\""), .nq, .lit (lc "out-of-stock")],
   [.lit (lc "class=\""), .nq, .lit (lc "sold-out")],
   [.lit (lc "class=\""), .nq, .lit (lc "unavailable")],
   [.lit (lc "\"instock\":"), .ws, .lit (lc "false")],
   [.lit (lc "\"available\":"), .ws, .lit (lc "false")]]

/-- `inStockPatterns` (relevant `/add to (cart|bag|basket)/i` expanded). -/
def inStockPatterns : List (List PatTok) :=
  [[.lit (lc "\"availability\":"), .ws, .lit (lc "\"instock\"")],
   [.lit (lc "\"availability\":"), .ws, .lit (lc "\"https://schema.org/instock\"")],
   [.lit (lc "\"instock\":"), .ws, .lit (lc "true")],
   [.lit (lc "\"available\":"), .ws, .lit (lc "true")],
   [.lit (lc "add to cart")],
   [.lit (lc "add to bag")],
   [.lit (lc "add to basket")]]

/-- `hasOutOfStockIndicator`. -/
def hasOutOfStockIndicator (html : LStr) : Bool :=
  outOfStockPatterns.any (fun p => testPat p (toLowerL html))

/-- `hasInStockIndicator`. -/
def hasInStockIndicator (html : LStr) : Bool :=
  inStockPatterns.any (fun p => testPat p (toLowerL html))

/-- The `inStock` computation of the generic path (lines 586–594):
`true`, overridden to `false` by a negative indicator, re-affirmed by a
positive one. -/
def genericInferStock (html : LStr) : Bool :=
  if hasOutOfStockIndicator html then false
  else if hasInStockIndicator html then true
  else true

/-- Everything the selector queries of `scrapeWithCheerio` /
`scrapeWithPuppeteer` extract from one document, before assembly.  The
claims under verification quantify over these extraction results, which
covers every syntactically valid HTML document (cheerio parses any input
without throwing and each selector yields an arbitrary list/string). -/
structure RawExtraction where
  url : LStr
  name : LStr
  images : List LStr
  priceText : LStr
  metaCurrency : Option LStr
  rawSizes : List LStr
  rawColors : List LStr
  description : LStr
  html : LStr
deriving DecidableEq

/-- `ScrapedProduct` as declared in `src/server/scraper.ts` (`price` is a
JS number, so `none` models `NaN`). -/
structure ScrapedProduct where
  name : LStr
  images : List LStr
  price : Option ℤ
  currency : LStr
  availableSizes : List LStr
  availableColors : Option (List LStr)
  inStock : Bool
  description : LStr
deriving DecidableEq

/-- Hostname of a WHATWG/Node URL, simplified model: the authority part
after `://` up to `/?#`, with userinfo and port removed, lower-cased;
`none` when the text has no scheme separator (where `new URL` throws). -/
def afterSchemeSep : LStr → Option LStr
  | [] => none
  | c :: rest =>
    if (lc "://").isPrefixOf (c :: rest) then some ((c :: rest).drop 3)
    else afterSchemeSep rest

/-- See `afterSchemeSep`. -/
def parseHostname (url : LStr) : Option LStr :=
  (afterSchemeSep url).map (fun a =>
    let auth := a.takeWhile (fun c => ¬ (c = '/' || c = '?' || c = '#'))
    let host := (auth.reverse.takeWhile (fun c => c ≠ '@')).reverse
    toLowerL (host.takeWhile (fun c => c ≠ ':')))

/-- `new URL(rel, base).href`, simplified model of the library routine:
root-relative paths are joined to the base origin, other relative paths
to the base directory. -/
def urlJoin (base rel : LStr) : LStr :=
  match afterSchemeSep base with
  | none => rel
  | some a =>
    let hostLen := (a.takeWhile (fun c => ¬ (c = '/' || c = '?' || c = '#'))).length
    let origin := base.take (base.length - a.length + hostLen)
    if (lc "/").isPrefixOf rel then origin ++ rel
    else
      let path := a.drop hostLen
      let dir := (path.reverse.dropWhile (fun c => c ≠ '/')).reverse
      origin ++ dir ++ rel

/-- Image-URL resolution of `processScrapedData` (lines 344–348). -/
def resolveImageUrl (base img : LStr) : LStr :=
  if (lc "http").isPrefixOf img then img
  else if (lc "//").isPrefixOf img then lc "https:" ++ img
  else urlJoin base img

/-- `JAVASCRIPT_HEAVY_DOMAINS` of `src/server/scraper.ts` (lines 18–24). -/
def javascriptHeavyDomains : List LStr :=
  [lc "zara.com", lc "hm.com", lc "shop.mango.com", lc "gap.com", lc "forever21.com"]

/-- `isJavaScriptHeavySite` of `src/server/scraper.ts` (lines 26–33):
substring test of each heavy domain against the lower-cased hostname;
`false` when URL parsing throws. -/
def isJavaScriptHeavySite (url : LStr) : Bool :=
  match parseHostname url with
  | none => false
  | some h => javascriptHeavyDomains.any (fun d => containsSub (toLowerL h) d)

/-- Assembly of `processScrapedData` (lines 234–360): price pipeline,
currency chain, size/color cleaning, stock patterns, image resolution
with placeholder substitution. -/
def processScrapedData (raw : RawExtraction) : ScrapedProduct :=
  let images := (raw.images.map (resolveImageUrl raw.url))
  { name := jsOrStr raw.name (lc "Untitled Product")
  , images :=
      if images.length > 0 then jsSetDedup images
      else [lc "https://via.placeholder.com/400"]
  , price := pipelinePriceRounded raw.priceText
  , currency := detectCurrency raw.priceText raw.metaCurrency
  , availableSizes := cleanSizes raw.rawSizes
  , availableColors :=
      let cc := cleanColors raw.rawColors
      if cc.length > 0 then some cc else none
  , inStock := genericInferStock raw.html
  , description := raw.description }

/-- Assembly of `scrapeWithCheerio` (lines 596–605); its logic is an
inlined duplicate of `processScrapedData`, except that the image URLs
were already resolved while collecting them. -/
def scrapeWithCheerioResult (raw : RawExtraction) : ScrapedProduct :=
  { name := jsOrStr raw.name (lc "Untitled Product")
  , images :=
      if raw.images.length > 0 then jsSetDedup raw.images
      else [lc "https://via.placeholder.com/400"]
  , price := pipelinePriceRounded raw.priceText
  , currency := detectCurrency raw.priceText raw.metaCurrency
  , availableSizes := cleanSizes raw.rawSizes
  , availableColors :=
      let cc := cleanColors raw.rawColors
      if cc.length > 0 then some cc else none
  , inStock := genericInferStock raw.html
  , description := raw.description }

/-- Network/browser outcomes a `scrapeProductFromUrl` call can observe:
what the Puppeteer session would extract (or the message of its failure)
and what the plain `fetch` + cheerio path would extract (or the message
of its failure, e.g. `"Product not found (404)"` for HTTP 404). -/
structure FetchEnv where
  puppeteerRaw : Except LStr RawExtraction
  cheerioRaw : Except LStr RawExtraction

/-- `scrapeWithCheerio` as a whole: fetch outcome, then assembly. -/
def scrapeWithCheerioRun (env : FetchEnv) : Except LStr ScrapedProduct :=
  match env.cheerioRaw with
  | .error m => .error m
  | .ok raw => .ok (scrapeWithCheerioResult raw)

/-- The outer `catch` of `scrapeProductFromUrl` (lines 624–630): 404
errors pass through, everything else is replaced by a generic message. -/
def scrapeFromUrlCatch (r : Except LStr ScrapedProduct) : Except LStr ScrapedProduct :=
  match r with
  | .ok p => .ok p
  | .error m =>
    if containsSub m (lc "Product not found (404)") then .error m
    else .error (lc "Failed to fetch product details. Check URL or website structure.")

/-- `scrapeProductFromUrl` (`src/server/scraper.ts` lines 608–631).  The
returned flag records whether a headless-browser session was launched:
JavaScript-heavy URLs run `scrapeWithPuppeteer` (whose extraction is
assembled by the generic `processScrapedData`) and fall back to
`scrapeWithCheerio` when it fails; all other URLs use `scrapeWithCheerio`
directly. -/
def scrapeProductFromUrl (url : LStr) (env : FetchEnv) :
    Except LStr ScrapedProduct × Bool :=
  if isJavaScriptHeavySite url then
    match env.puppeteerRaw with
    | .ok raw => (scrapeFromUrlCatch (.ok (processScrapedData raw)), true)
    | .error _ => (scrapeFromUrlCatch (scrapeWithCheerioRun env), true)
  else
    (scrapeFromUrlCatch (scrapeWithCheerioRun env), false)

end Wishly.Scraper

namespace Wishly.Scrapers

/-!  Embedding of the `src/server/scrapers/` class hierarchy
(`base_scraper.ts`, `scrapedProduct.ts`). -/

/-- `PriceInfo` of `scrapedProduct.ts`: amount in minor units plus code. -/
structure PriceInfo where
  price : ℤ
  currency : LStr
deriving DecidableEq

/-- `SizeInfo` of `scrapedProduct.ts`. -/
structure SizeInfo where
  name : LStr
  inStock : Bool
deriving DecidableEq

/-- `ColorInfo` of `scrapedProduct.ts`. -/
structure ColorInfo where
  name : LStr
  swatchUrl : Option LStr
deriving DecidableEq

/-- `ScrapedProduct` of `scrapedProduct.ts` (the router/worker shape). -/
structure ScrapedProduct where
  name : LStr
  priceInfo : Option PriceInfo
  availableSizes : List SizeInfo
  availableColors : List ColorInfo
  images : List LStr
  inStock : Bool
  description : Option LStr
deriving DecidableEq

/-- `BaseScraper.parsePriceString` (`base_scraper.ts` lines 74–99):
strip `[$,£€¥₽]` and commas, `parseFloat`, `null` on `NaN`, detect the
currency from the raw text, convert to cents. -/
def parsePriceString (s : LStr) : Option PriceInfo :=
  -- if (!priceStr) return null  (empty string is falsy)
  if s.isEmpty then none
  else
    let cleaned :=
      ((s.filter (fun c => ¬ (c = '$' || c = ',' || c = '£' || c = '€' || c = '¥' || c = '₽')))
        |>.dropWhile jsWhitespace).reverse.dropWhile jsWhitespace |>.reverse
    match jsParseFloat cleaned with
    | none => none
    | some q =>
      let currency :=
        if containsSub s (lc "£") then lc "GBP"
        else if containsSub s (lc "€") then lc "EUR"
        else if containsSub s (lc "¥") || containsSub s (lc "円") then lc "JPY"
        else if containsSub s (lc "₽") then lc "RUB"
        else lc "USD"
      some { price := mathRound (q * 100), currency := currency }

/-- The outputs of the seven capability methods of a `BaseScraper`
subclass on one document (`getName … getDescription`); the default
orchestration quantifies over them. -/
structure Capabilities where
  name : Option LStr
  priceInfo : Option PriceInfo
  sizes : List SizeInfo
  colors : List ColorInfo
  images : List LStr
  inStock : Bool
  description : Option LStr
deriving DecidableEq

/-- `BaseScraper.resolveUrl` (lines 57–71): protocol-relative URLs get
`https:`, others go through `new URL(rel, this.url)`. -/
def resolveUrl (pageUrl rel : LStr) : LStr :=
  if rel.isEmpty then []
  else if (lc "//").isPrefixOf rel then lc "https:" ++ rel
  else Scraper.urlJoin pageUrl rel

/-- `BaseScraper.scrape` (lines 103–118): merge the capability outputs,
resolve and deduplicate images, substituting the placeholder when none
were found. -/
def scrape (caps : Capabilities) (pageUrl : LStr) : ScrapedProduct :=
  let images := caps.images.map (resolveUrl pageUrl)
  { name :=
      match caps.name with
      | some n => if n.isEmpty then lc "Untitled Product" else n
      | none => lc "Untitled Product"
  , priceInfo := caps.priceInfo
  , availableSizes := caps.sizes
  , availableColors := caps.colors
  , images :=
      if images.length > 0 then jsSetDedup images
      else [lc "https://via.placeholder.com/400"]
  , inStock := caps.inStock
  , description := caps.description }

/-- The stock determination of `AmazonScraper.scrape`
(`amazon_scraper.ts` lines 182–210): an `#add-to-cart-button` with no
`unavailable` availability notice, or some size variant in stock. -/
def amazonInStock (sizes : List SizeInfo) (addToCartButton unavailableText : Bool) : Bool :=
  (addToCartButton && !unavailableText)
    || (decide (0 < sizes.length) && sizes.any (fun s => s.inStock))

end Wishly.Scrapers

namespace Wishly.Router

/-!  Embedding of the domain router, `src/unnamed/part_013`
(`server/scraper.ts`, the rebuilt router), and its registry. -/

open Wishly.Scrapers

/-- The scraper classes registered in `SCRAPER_REGISTRY`. -/
inductive ScraperCls
  | mytheresa | zara | hm | aym | coachoutlet | amazon | etsy
  | charlesTyrhitt | theFold | ralphLauren | jcrew | maxmara | yoox
  | farfetch | theoutnet
deriving DecidableEq

/-- `SCRAPER_REGISTRY` (lines 28–52): static domain → class table. -/
def scraperRegistry : List (LStr × ScraperCls) :=
  [(lc "mytheresa.com", .mytheresa),
   (lc "zara.com", .zara),
   (lc "hm.com", .hm),
   (lc "www2.hm.com", .hm),
   (lc "aym-studio.com", .aym),
   (lc "coachoutlet.com", .coachoutlet),
   (lc "amazon.com", .amazon),
   (lc "amazon.co.uk", .amazon),
   (lc "amazon.de", .amazon),
   (lc "amazon.fr", .amazon),
   (lc "amazon.ca", .amazon),
   (lc "etsy.com", .etsy),
   (lc "ctshirts.com", .charlesTyrhitt),
   (lc "thefoldlondon.com", .theFold),
   (lc "ralphlauren.com", .ralphLauren),
   (lc "ralphlauren.co.uk", .ralphLauren),
   (lc "jcrew.com", .jcrew),
   (lc "maxmara.com", .maxmara),
   (lc "us.maxmara.com", .maxmara),
   (lc "gb.maxmara.com", .maxmara),
   (lc "yoox.com", .yoox),
   (lc "farfetch.com", .farfetch),
   (lc "theoutnet.com", .theoutnet)]

/-- Registry lookup. -/
def lookupRegistry (d : LStr) : Option ScraperCls :=
  scraperRegistry.lookup d

/-- `JAVASCRIPT_HEAVY_DOMAINS` of the router (lines 55–70). -/
def javascriptHeavyDomains : List LStr :=
  [lc "zara.com", lc "hm.com", lc "shop.mango.com", lc "gap.com",
   lc "forever21.com", lc "jcrew.com", lc "ralphlauren.com", lc "farfetch.com",
   lc "amazon.com", lc "amazon.co.uk", lc "amazon.de", lc "amazon.fr",
   lc "amazon.ca"]

/-- `isJavaScriptHeavySite` of the router (lines 72–80). -/
def isJavaScriptHeavySite (url : LStr) : Bool :=
  match Scraper.parseHostname url with
  | none => false
  | some h => javascriptHeavyDomains.any (fun d => containsSub (toLowerL h) d)

/-- `parse(url).hostname || ""` (Node's `url.parse` yields `null` for a
scheme-less string, which `|| ""` turns into the empty hostname). -/
def hostnameOf (url : LStr) : LStr :=
  (Scraper.parseHostname url).getD []

/-- Hostname normalization of `routeAndScrape` (lines 90–95): strip a
leading `www.`, collapse the maxmara regional subdomains. -/
def normalizeDomain (host : LStr) : LStr :=
  let d := if (lc "www.").isPrefixOf host then host.drop 4 else host
  if (lc "maxmara.com").isSuffixOf d then lc "maxmara.com" else d

/-- A live Puppeteer page handle. -/
inductive PageHandle
  | live
deriving DecidableEq

/-- A constructed scraper instance (`new ScraperClass(html, url, page)`). -/
structure ScraperInstance where
  cls : ScraperCls
  html : LStr
  url : LStr
  page : Option PageHandle
deriving DecidableEq

/-- Scraper construction.  Six registered constructors throw when no
Puppeteer page is supplied — `ZaraScraper` (`zara_scraper.ts` 31–37),
`AmazonScraper` (`amazon_scraper.ts` 15–23), `HmScraper`
(`hm_scraper.ts` 18–25), `JCrewScraper` (`jcrew_scraper.ts` 15–23),
`FarfetchScraper` (`farfetch_scraper.ts` 15–23) and `RalphLaurenScraper`
(`ralph_lauren_scraper.ts` 17–26) — each with its own message; every
other registered class (`MytheresaScraper`, `AymScraper`,
`CoachOutletScraper`, `EtsyScraper`, `CharlesTyrhittScraper`,
`TheFoldScraper`, `MaxMaraScraper`, `YooxScraper`, `TheOutnetScraper`)
has no page check and stores whatever page argument it receives. -/
def mkScraper (cls : ScraperCls) (html url : LStr) (page : Option PageHandle) :
    Except LStr ScraperInstance :=
  match cls, page with
  | .zara, none => .error (lc "Zara scraper requires a Puppeteer page instance.")
  | .amazon, none => .error (lc "Amazon scraper requires a Puppeteer page instance.")
  | .hm, none => .error (lc "H&M scraper requires a Puppeteer page instance.")
  | .jcrew, none => .error (lc "J.Crew scraper requires a Puppeteer page instance.")
  | .farfetch, none => .error (lc "Farfetch scraper requires a Puppeteer page instance.")
  | .ralphLauren, none => .error (lc "Ralph Lauren scraper requires a Puppeteer page instance.")
  | _, _ => .ok { cls := cls, html := html, url := url, page := page }

/-- The page argument the router passes to the scraper constructor
(lines 137–152): the live page iff the site is JavaScript-heavy or the
selected class is the Amazon scraper, `null` otherwise. -/
def routerPageArg (url : LStr) (cls : ScraperCls) : Option PageHandle :=
  if isJavaScriptHeavySite url || cls == ScraperCls.amazon then some PageHandle.live
  else none

/-- Page-lifecycle events of one `routeAndScrape` call. -/
inductive RouterEv
  | pageOpen
  | navigate
  | pageClose
deriving DecidableEq

/-- The error annotation of the router's `catch` (line 168):
`Scraping failed for ${url} (Domain: ${domain}): ${inner}`. -/
def routerErrorMessage (url domain inner : LStr) : LStr :=
  lc "Scraping failed for " ++ url ++ lc " (Domain: " ++ domain ++ lc "): " ++ inner

/-- The message of the error thrown on a registry miss (line 111). -/
def unregisteredDomainMessage (domain : LStr) : LStr :=
  lc "No scraper registered for domain: " ++ domain

/-- Outcomes of the external effects one `routeAndScrape` call performs:
the navigation (`page.goto` + `page.content`) and the scrape
(`scraperInstance.scrape()`), each either succeeding or throwing with a
message. -/
structure RouterEnv where
  navResult : Except LStr Unit
  pageHtml : LStr
  scrapeResult : Except LStr ScrapedProduct

/-- `routeAndScrape` (lines 86–171) with its page-lifecycle event trace:
normalize the hostname, look up the registry (throwing before any page
exists on a miss), open/navigate a page, construct the scraper with the
page argument of `routerPageArg`, run it, close the page on success; the
`catch` closes the page when one is open, annotates the error with url
and domain, and rethrows. -/
def routeAndScrape (url : LStr) (env : RouterEnv) :
    Except LStr ScrapedProduct × List RouterEv :=
  let fullDomain := hostnameOf url
  let domain := normalizeDomain fullDomain
  match lookupRegistry domain with
  | none =>
    (.error (routerErrorMessage url domain (unregisteredDomainMessage domain)), [])
  | some cls =>
    match env.navResult with
    | .error m =>
      (.error (routerErrorMessage url domain m),
       [RouterEv.pageOpen, RouterEv.navigate, RouterEv.pageClose])
    | .ok _ =>
      match mkScraper cls env.pageHtml url (routerPageArg url cls) with
      | .error m =>
        (.error (routerErrorMessage url domain m),
         [RouterEv.pageOpen, RouterEv.navigate, RouterEv.pageClose])
      | .ok _ =>
        match env.scrapeResult with
        | .error m =>
          (.error (routerErrorMessage url domain m),
           [RouterEv.pageOpen, RouterEv.navigate, RouterEv.pageClose])
        | .ok p =>
          (.ok p, [RouterEv.pageOpen, RouterEv.navigate, RouterEv.pageClose])

end Wishly.Router

namespace Wishly.Worker

/-!  Embedding of the worker loop (`src/unnamed/part_010`, `worker.ts`)
and the storage methods it calls (`MemStorage` in `src/unnamed/part_005`,
`storage.ts`).  `Date` values are abstract `ℕ` timestamps. -/

open Wishly.Scrapers

/-- A persisted `Item` row (`shared/schema.ts`): the nullable columns are
`Option`. -/
structure Item where
  id : ℕ
  url : LStr
  status : LStr
  name : Option LStr
  price : Option ℤ
  currency : Option LStr
  images : List LStr
  availableSizes : List LStr
  inStock : Option Bool
  description : Option LStr
  lastCheckedAt : Option ℕ
  lastCheckError : Option LStr
deriving DecidableEq

/-- A `price_history` row. -/
structure PriceHistoryEntry where
  itemId : ℕ
  price : ℤ
  currency : Option LStr
  inStock : Option Bool
  checkedAt : ℕ
deriving DecidableEq

/-- The mutable state of `MemStorage`: the item table and the
price-history log. -/
structure Store where
  items : List Item
  priceHistory : List PriceHistoryEntry
deriving DecidableEq

/-- The `updates` object built by `updateScrapedItem`.  A JS object key
can be absent (outer `none`: the spread keeps the stored value) or
present with a possibly-`undefined` value (the spread overwrites); the
worker only ever sets `status`/`lastCheckedAt` unconditionally and
`lastCheckError` to a definite string. -/
structure ItemUpdates where
  status : LStr
  lastCheckedAt : ℕ
  name : Option (Option LStr)
  price : Option (Option ℤ)
  currency : Option (Option LStr)
  images : Option (List LStr)
  availableSizes : Option (List LStr)
  inStock : Option (Option Bool)
  description : Option (Option LStr)
  lastCheckError : Option LStr

/-- `MemStorage` key lookup (`this.items.get(id)`). -/
def getItemById (st : Store) (id : ℕ) : Option Item :=
  st.items.find? (fun it => it.id == id)

/-- `MemStorage.addPriceHistory` (minus the random row id). -/
def addPriceHistory (st : Store) (e : PriceHistoryEntry) : Store :=
  { st with priceHistory := st.priceHistory ++ [e] }

/-- The object spread `{ ...item, ...updates }` of
`MemStorage.updateItem`: every present key overwrites. -/
def applyUpdates (it : Item) (u : ItemUpdates) : Item :=
  { it with
    status := u.status
  , lastCheckedAt := some u.lastCheckedAt
  , name := match u.name with | none => it.name | some v => v
  , price := match u.price with | none => it.price | some v => v
  , currency := match u.currency with | none => it.currency | some v => v
  , images := match u.images with | none => it.images | some v => v
  , availableSizes := match u.availableSizes with | none => it.availableSizes | some v => v
  , inStock := match u.inStock with | none => it.inStock | some v => v
  , description := match u.description with | none => it.description | some v => v
  , lastCheckError := match u.lastCheckError with | none => it.lastCheckError | some m => some m }

/-- `MemStorage.updateItem` (`storage.ts` lines 123–146): merge the
updates into the stored item and, when a defined `price` differs from
the stored one, append a price-history row (`updates.currency ||
item.currency`, `updates.inStock ?? item.inStock`). -/
def updateItem (st : Store) (id : ℕ) (u : ItemUpdates) (now : ℕ) : Store :=
  match getItemById st id with
  | none => st
  | some it =>
    let it' := applyUpdates it u
    let st' := { st with items := st.items.map (fun j => if j.id == id then it' else j) }
    match u.price with
    | some (some p) =>
      if it.price ≠ some p then
        addPriceHistory st'
          { itemId := id
          , price := p
          , currency :=
              match u.currency with
              | some (some c) => if c.isEmpty then it.currency else some c
              | _ => it.currency
          , inStock :=
              match u.inStock with
              | some (some b) => some b
              | _ => it.inStock
          , checkedAt := now }
      else st'
    | _ => st'

/-- The three call shapes of the worker's `updateScrapedItem`: a
successful scrape with its data, a message-classified failure, or a dead
link (`worker.ts` lines 144–160 always pass one of these). -/
inductive ScrapeOutcomeUpdate
  | processed (sd : ScrapedProduct)
  | failed (msg : LStr)
  | linkDead (msg : LStr)

/-- The `updates` object of `updateScrapedItem` for a successful scrape
(lines 75–88): every mirrored field key is present, with
`scrapedData.priceInfo?.price` / `?.currency` possibly `undefined`, and
no `lastCheckError` key. -/
def processedUpdates (sd : ScrapedProduct) (now : ℕ) : ItemUpdates :=
  { status := lc "processed"
  , lastCheckedAt := now
  , name := some (some sd.name)
  , price := some (sd.priceInfo.map (fun pi => pi.price))
  , currency := some (sd.priceInfo.map (fun pi => pi.currency))
  , images := some sd.images
  , availableSizes := some (sd.availableSizes.map (fun s => s.name))
  , inStock := some (some sd.inStock)
  , description := some sd.description
  , lastCheckError := none }

/-- The `updates` object for `status === "failed"` (lines 100–101). -/
def failedUpdates (msg : LStr) (now : ℕ) : ItemUpdates :=
  { status := lc "failed"
  , lastCheckedAt := now
  , name := none, price := none, currency := none, images := none
  , availableSizes := none, inStock := none, description := none
  , lastCheckError := some msg }

/-- The `updates` object for `status === "link_dead"` (lines 102–105). -/
def linkDeadUpdates (now : ℕ) : ItemUpdates :=
  { status := lc "link_dead"
  , lastCheckedAt := now
  , name := none, price := none, currency := none, images := none
  , availableSizes := none
  , inStock := some (some false)
  , description := none
  , lastCheckError := some (lc "Product not found (404)") }

/-- `updateScrapedItem` (`worker.ts` lines 57–115): on success append a
price-history row when a price was scraped (and only then), then the
item update; on failures only the item update. -/
def updateScrapedItem (st : Store) (id : ℕ) (o : ScrapeOutcomeUpdate) (now : ℕ) : Store :=
  match o with
  | .processed sd =>
    let st1 :=
      match sd.priceInfo with
      | some pi =>
        addPriceHistory st
          { itemId := id, price := pi.price, currency := some pi.currency
          , inStock := some sd.inStock, checkedAt := now }
      | none => st
    updateItem st1 id (processedUpdates sd now) now
  | .failed msg => updateItem st id (failedUpdates msg now) now
  | .linkDead _ => updateItem st id (linkDeadUpdates now) now

/-- `getNextItemToScrape` (lines 41–54): the first item whose status is
`pending`. -/
def getNextItemToScrape (st : Store) : Option Item :=
  st.items.find? (fun it => it.status == lc "pending")

/-- The error classification of the worker's `catch` (lines 148–151):
message contains `404`, or lower-cased contains `not found`. -/
def isNotFoundMessage (msg : LStr) : Bool :=
  containsSub msg (lc "404") || containsSub (toLowerL msg) (lc "not found")

/-- One iteration of the worker loop body (`main`, lines 133–161), given
the outcome `routeAndScrape` produced for the picked item; when no item
is pending the store is untouched (the loop just sleeps). -/
def workerIteration (st : Store) (outcome : Except LStr ScrapedProduct) (now : ℕ) : Store :=
  match getNextItemToScrape st with
  | none => st
  | some it =>
    match outcome with
    | .ok sd => updateScrapedItem st it.id (.processed sd) now
    | .error msg =>
      if isNotFoundMessage msg then
        updateScrapedItem st it.id (.linkDead msg) now
      else
        updateScrapedItem st it.id (.failed msg) now

end Wishly.Worker

namespace Wishly.SpecModel

/-!  Formalizations of the specification's own rules, written from the
spec's words, for refinement comparison against the source embeddings. -/

open Wishly.Scrapers

/-- The separator rule as the specification states it, for price strings
(digit/`,`/`.` texts): when both `.` and `,` occur, the right-most
separator occurrence is the decimal point and every other separator is
grouping; when only one of the two occurs, a unique occurrence followed
by exactly 1–2 digits is the decimal separator, otherwise all its
occurrences are thousands grouping; a string with no digits has no
value. -/
def specSeparatorValue (s : LStr) : Option ℚ :=
  if ¬ s.any Char.isDigit then none
  else
    let hasC := s.contains ','
    let hasD := s.contains '.'
    if hasC && hasD then
      let i := (max (jsLastIndexOf s ',') (jsLastIndexOf s '.')).toNat
      let pre := (s.take i).filter Char.isDigit
      let post := (s.drop (i + 1)).filter Char.isDigit
      some ((digitsValue pre : ℚ) + (digitsValue post : ℚ) / 10 ^ post.length)
    else if hasC || hasD then
      let c := if hasC then ',' else '.'
      if s.count c = 1 then
        let i := (jsLastIndexOf s c).toNat
        let post := (s.drop (i + 1)).filter Char.isDigit
        if 1 ≤ post.length ∧ post.length ≤ 2 then
          some ((digitsValue ((s.take i).filter Char.isDigit) : ℚ)
            + (digitsValue post : ℚ) / 10 ^ post.length)
        else some ((digitsValue (s.filter Char.isDigit) : ℚ))
      else some ((digitsValue (s.filter Char.isDigit) : ℚ))
    else some ((digitsValue (s.filter Char.isDigit) : ℚ))

/-- The explicit structured-data availability field of a document, as the
spec's stock-precedence step (2) reads it: an `"availability"` marker
valued `InStock` means available, `OutOfStock`/`SoldOut` means not. -/
def specStructuredAvailability (html : LStr) : Option Bool :=
  let low := toLowerL html
  if Scraper.testPat [.lit (lc "\"availability\":"), .ws, .lit (lc "\"instock\"")] low
      || Scraper.testPat [.lit (lc "\"availability\":"), .ws,
           .lit (lc "\"https://schema.org/instock\"")] low
  then some true
  else if Scraper.testPat [.lit (lc "\"availability\":"), .ws, .lit (lc "\"outofstock\"")] low
      || Scraper.testPat [.lit (lc "\"availability\":"), .ws, .lit (lc "\"soldout\"")] low
  then some false
  else none

/-- Step (3) of the spec's precedence: a textual negative pattern. -/
def specNegativeText (html : LStr) : Bool :=
  let low := toLowerL html
  [lc "sold out", lc "out of stock", lc "unavailable", lc "discontinued"].any
    (fun p => containsSub low p)

/-- Step (4) of the spec's precedence: a positive signal (an add-to-cart
control, or structured-data `InStock`). -/
def specPositiveSignal (html : LStr) : Bool :=
  let low := toLowerL html
  [lc "add to cart", lc "add to bag", lc "add to basket"].any
      (fun p => containsSub low p)
    || specStructuredAvailability html = some true

/-- `inferStock` exactly as the claim orders its precedence: available
size entries first, then the explicit structured-data field, then
textual negatives, then positive signals, then the path default. -/
def specInferStock (sizes : List SizeInfo) (html : LStr) (pathDefault : Bool) : Bool :=
  if sizes.any (fun s => s.inStock) then true
  else
    match specStructuredAvailability html with
    | some b => b
    | none =>
      if specNegativeText html then false
      else if specPositiveSignal html then true
      else pathDefault

end Wishly.SpecModel

namespace Wishly.Fixtures

/-!  Concrete stores, products and environments used to instantiate the
theorems below on explicit inputs. -/

open Wishly.Scrapers Wishly.Worker Wishly.Router Wishly.Scraper

/-- A scraped product whose price (500) differs from the stored one. -/
def sampleProduct : Scrapers.ScrapedProduct :=
  { name := lc "Sample Product"
  , priceInfo := some { price := 500, currency := lc "USD" }
  , availableSizes := [{ name := lc "M", inStock := true }]
  , availableColors := []
  , images := [lc "https://example.com/i.jpg"]
  , inStock := true
  , description := none }

/-- A scraped product with no price information. -/
def pricelessProduct : Scrapers.ScrapedProduct :=
  { name := lc "Priceless Product"
  , priceInfo := none
  , availableSizes := []
  , availableColors := []
  , images := [lc "https://example.com/i.jpg"]
  , inStock := true
  , description := none }

/-- A pending item carrying a stale error message and an old price. -/
def samplePendingItem : Item :=
  { id := 1
  , url := lc "https://example.com/p"
  , status := lc "pending"
  , name := some (lc "Old Name")
  , price := some 1000
  , currency := some (lc "USD")
  , images := [lc "https://example.com/old.jpg"]
  , availableSizes := [lc "M"]
  , inStock := some true
  , description := none
  , lastCheckedAt := some 0
  , lastCheckError := some (lc "previous error") }

/-- A one-item store with an empty price history. -/
def sampleStore : Store :=
  { items := [samplePendingItem], priceHistory := [] }

/-- A router environment in which every external step succeeds. -/
def routerEnvOk : RouterEnv :=
  { navResult := .ok ()
  , pageHtml := lc "<html></html>"
  , scrapeResult := .ok sampleProduct }

/-- A router environment whose scrape step throws. -/
def routerEnvScrapeFail : RouterEnv :=
  { navResult := .ok ()
  , pageHtml := lc "<html></html>"
  , scrapeResult := .error (lc "boom") }

/-- Extraction results of an empty-ish page. -/
def sampleRaw : RawExtraction :=
  { url := lc "https://example.com/p"
  , name := lc "Sample Product"
  , images := []
  , priceText := lc "$12.34"
  , metaCurrency := none
  , rawSizes := []
  , rawColors := []
  , description := lc ""
  , html := lc "<html></html>" }

/-- A fetch environment in which both rendering paths succeed. -/
def fetchEnvOk : FetchEnv :=
  { puppeteerRaw := .ok sampleRaw, cheerioRaw := .ok sampleRaw }

end Wishly.Fixtures

namespace Wishly

/-!  Library lemmas about the embedded JavaScript string primitives. -/

/-- `split` on a separator-free string. -/
theorem jsSplit_not_mem {t : Char} {s : LStr} (h : t ∉ s) : jsSplit t s = [s] := by
  induction s with
  | nil => rfl
  | cons c rest ih =>
    have hc : c ≠ t := fun hct => h (hct ▸ List.mem_cons_self c rest)
    have hr : t ∉ rest := fun hm => h (List.mem_cons_of_mem c hm)
    simp [jsSplit, hc, ih hr]

/-- Peeling the first separator occurrence off a `split`. -/
theorem jsSplit_append {t : Char} {x : LStr} (y : LStr) (hx : t ∉ x) :
    jsSplit t (x ++ t :: y) = x :: jsSplit t y := by
  induction x with
  | nil => simp [jsSplit]
  | cons c rest ih =>
    have hc : c ≠ t := fun hct => hx (hct ▸ List.mem_cons_self c rest)
    have hr : t ∉ rest := fun hm => hx (List.mem_cons_of_mem c hm)
    simp only [List.cons_append, jsSplit, List.append_eq, ih hr, if_neg hc]

/-- `split` produces one more part than there are separators. -/
theorem jsSplit_length (t : Char) (s : LStr) :
    (jsSplit t s).length = s.count t + 1 := by
  induction s with
  | nil => simp [jsSplit]
  | cons c rest ih =>
    by_cases hc : c = t
    · subst hc
      simp only [jsSplit, if_true]
      simp only [List.length_cons, ih, List.count_cons_self]
    · have h1 : (jsSplit t rest).length = rest.count t + 1 := ih
      match hsp : jsSplit t rest with
      | [] => rw [hsp] at h1; simp at h1
      | h :: tl =>
        rw [hsp] at h1
        simp only [jsSplit, hsp, if_neg hc]
        simp only [List.length_cons] at h1 ⊢
        rw [List.count_cons_of_ne (Ne.symm hc)]
        omega

/-- Replacing the first occurrence. -/
theorem jsReplaceFirst_append {t r : Char} {x : LStr} (y : LStr) (hx : t ∉ x) :
    jsReplaceFirst t r (x ++ t :: y) = x ++ r :: y := by
  induction x with
  | nil => simp [jsReplaceFirst]
  | cons c rest ih =>
    have hc : c ≠ t := fun hct => hx (hct ▸ List.mem_cons_self c rest)
    have hr : t ∉ rest := fun hm => hx (List.mem_cons_of_mem c hm)
    simp [jsReplaceFirst, hc, ih hr]

/-- `lastIndexOf` of an absent character. -/
theorem jsLastIndexOf_not_mem {t : Char} {s : LStr} (h : t ∉ s) :
    jsLastIndexOf s t = -1 := by
  induction s with
  | nil => rfl
  | cons c rest ih =>
    have hc : c ≠ t := fun hct => h (hct ▸ List.mem_cons_self c rest)
    have hr : t ∉ rest := fun hm => h (List.mem_cons_of_mem c hm)
    simp [jsLastIndexOf, ih hr, hc]

/-- `lastIndexOf` is below the length. -/
theorem jsLastIndexOf_lt_length (s : LStr) (t : Char) :
    jsLastIndexOf s t < s.length := by
  induction s with
  | nil => simp [jsLastIndexOf]
  | cons c rest ih =>
    simp only [jsLastIndexOf, List.length_cons]
    split
    · push_cast; omega
    · split <;> push_cast <;> omega

/-- `lastIndexOf` of the final occurrence. -/
theorem jsLastIndexOf_append_last {t : Char} {y : LStr} (x : LStr) (hy : t ∉ y) :
    jsLastIndexOf (x ++ t :: y) t = x.length := by
  induction x with
  | nil =>
    show jsLastIndexOf (t :: y) t = 0
    simp only [jsLastIndexOf, jsLastIndexOf_not_mem hy]
    norm_num
  | cons c rest ih =>
    show jsLastIndexOf (c :: (rest ++ t :: y)) t = ((rest.length + 1 : ℕ) : ℤ)
    simp only [jsLastIndexOf, List.append_eq, ih]
    rw [if_pos (show (rest.length : ℤ) ≥ 0 by positivity)]
    push_cast
    ring

/-- `lastIndexOf` ignores a suffix free of the character. -/
theorem jsLastIndexOf_append_none {t : Char} {z : LStr} (x : LStr) (hz : t ∉ z) :
    jsLastIndexOf (x ++ z) t = jsLastIndexOf x t := by
  induction x with
  | nil => simp [jsLastIndexOf_not_mem hz, jsLastIndexOf]
  | cons c rest ih =>
    simp only [List.cons_append, jsLastIndexOf, List.append_eq, ih]

end Wishly

namespace Wishly

/-- A digit character is not JS whitespace. -/
theorem digit_not_whitespace {c : Char} (h : c.isDigit = true) :
    jsWhitespace c = false := by
  have h1 : c ≠ ' ' := by rintro rfl; exact absurd h (by decide)
  have h2 : c ≠ '\t' := by rintro rfl; exact absurd h (by decide)
  have h3 : c ≠ '\n' := by rintro rfl; exact absurd h (by decide)
  have h4 : c ≠ '\r' := by rintro rfl; exact absurd h (by decide)
  simp [jsWhitespace, h1, h2, h3, h4]

/-- A digit character is not a separator or sign character. -/
theorem digit_ne {c d : Char} (h : c.isDigit = true) (hd : d.isDigit = false) :
    c ≠ d := by
  rintro rfl
  rw [h] at hd
  exact absurd hd (by simp)

/-- `takeWhile` walks through an all-satisfying prefix. -/
theorem takeWhile_append_all {p : Char → Bool} {x : LStr} (y : LStr)
    (h : ∀ c ∈ x, p c = true) : (x ++ y).takeWhile p = x ++ y.takeWhile p := by
  induction x with
  | nil => simp
  | cons c rest ih =>
    have hc : p c = true := h c (List.mem_cons_self c rest)
    have hr : ∀ c ∈ rest, p c = true := fun d hd => h d (List.mem_cons_of_mem c hd)
    simp [List.takeWhile_cons, hc, ih hr]

/-- `dropWhile` skips an all-satisfying prefix. -/
theorem dropWhile_append_all {p : Char → Bool} {x : LStr} (y : LStr)
    (h : ∀ c ∈ x, p c = true) : (x ++ y).dropWhile p = y.dropWhile p := by
  induction x with
  | nil => simp
  | cons c rest ih =>
    have hc : p c = true := h c (List.mem_cons_self c rest)
    have hr : ∀ c ∈ rest, p c = true := fun d hd => h d (List.mem_cons_of_mem c hd)
    simp [List.dropWhile_cons, hc, ih hr]

/-- `takeWhile` of an all-satisfying list. -/
theorem takeWhile_all {p : Char → Bool} {x : LStr} (h : ∀ c ∈ x, p c = true) :
    x.takeWhile p = x := by
  have := takeWhile_append_all (p := p) [] h
  simpa using this

/-- `dropWhile` of an all-satisfying list. -/
theorem dropWhile_all {p : Char → Bool} {x : LStr} (h : ∀ c ∈ x, p c = true) :
    x.dropWhile p = [] := by
  have := dropWhile_append_all (p := p) [] h
  simpa using this

/-- `dropWhile` stops at a failing head. -/
theorem dropWhile_cons_neg {p : Char → Bool} {c : Char} (l : LStr) (h : p c = false) :
    (c :: l).dropWhile p = c :: l := by
  simp [List.dropWhile_cons, h]

/-- `jsParseSigned` without a sign character at the head. -/
theorem jsParseSigned_no_sign {c : Char} (r : LStr) (h1 : c ≠ '-') (h2 : c ≠ '+') :
    jsParseSigned (c :: r) = jsParseMantissa (c :: r) := by
  unfold jsParseSigned
  split
  · next heq => rw [List.cons.injEq] at heq; exact absurd heq.1 h1
  · next heq => rw [List.cons.injEq] at heq; exact absurd heq.1 h2
  · rfl

/-- `parseFloat` on a pure digit string. -/
theorem jsParseFloat_digits {a : LStr} (ha : ∀ c ∈ a, c.isDigit = true) :
    jsParseFloat a = if a.isEmpty then none else some ((digitsValue a : ℚ)) := by
  cases a with
  | nil => rfl
  | cons c rest =>
    have hc : c.isDigit = true := ha c (List.mem_cons_self c rest)
    have hrest : ∀ d ∈ rest, d.isDigit = true := fun d hd => ha d (List.mem_cons_of_mem c hd)
    unfold jsParseFloat
    rw [dropWhile_cons_neg rest (digit_not_whitespace hc)]
    rw [jsParseSigned_no_sign rest (digit_ne hc (by decide)) (digit_ne hc (by decide))]
    unfold jsParseMantissa
    have ht : (c :: rest).takeWhile Char.isDigit = c :: rest := takeWhile_all ha
    have hd : (c :: rest).dropWhile Char.isDigit = [] := dropWhile_all ha
    rw [ht, hd]

/-- `parseFloat` on `digits ++ "." ++ digits`. -/
theorem jsParseFloat_digits_dot {a b : LStr}
    (ha : ∀ c ∈ a, c.isDigit = true) (hb : ∀ c ∈ b, c.isDigit = true) :
    jsParseFloat (a ++ '.' :: b) =
      if a.isEmpty && b.isEmpty then none
      else some ((digitsValue a : ℚ) + (digitsValue b : ℚ) / 10 ^ b.length) := by
  have hnotws : ∀ c ∈ a, jsWhitespace c = false := fun c hc => digit_not_whitespace (ha c hc)
  have hmant : jsParseMantissa (a ++ '.' :: b) =
      if a.isEmpty && b.isEmpty then none
      else some ((digitsValue a : ℚ) + (digitsValue b : ℚ) / 10 ^ b.length) := by
    unfold jsParseMantissa
    have ht : (a ++ '.' :: b).takeWhile Char.isDigit = a := by
      rw [takeWhile_append_all _ ha]
      simp [List.takeWhile_cons]
    have hd : (a ++ '.' :: b).dropWhile Char.isDigit = '.' :: b := by
      rw [dropWhile_append_all _ ha]
      exact dropWhile_cons_neg b (by decide)
    rw [ht, hd]
    simp only []
    rw [takeWhile_all hb]
  cases a with
  | nil =>
    show jsParseFloat ('.' :: b) = _
    unfold jsParseFloat
    rw [dropWhile_cons_neg b (by decide)]
    rw [jsParseSigned_no_sign b (by decide) (by decide)]
    exact hmant
  | cons c rest =>
    have hc : c.isDigit = true := ha c (List.mem_cons_self c rest)
    show jsParseFloat (c :: (rest ++ '.' :: b)) = _
    unfold jsParseFloat
    rw [dropWhile_cons_neg _ (digit_not_whitespace hc)]
    rw [jsParseSigned_no_sign _ (digit_ne hc (by decide)) (digit_ne hc (by decide))]
    exact hmant

end Wishly

namespace Wishly

/-- `contains` from membership. -/
theorem contains_of_mem {c : Char} {s : LStr} (h : c ∈ s) : s.contains c = true := by
  simp [h]

/-- `contains` from non-membership. -/
theorem contains_of_not_mem {c : Char} {s : LStr} (h : c ∉ s) : s.contains c = false := by
  simp [h]

/-- On digit-or-dot strings, stripping dots is the same as keeping digits. -/
theorem filter_ne_dot_eq_digits {x : LStr} (hx : ∀ c ∈ x, c.isDigit = true ∨ c = '.') :
    x.filter (fun c => c ≠ '.') = x.filter Char.isDigit := by
  induction x with
  | nil => rfl
  | cons c rest ih =>
    have hc := hx c (List.mem_cons_self c rest)
    have hr : ∀ d ∈ rest, d.isDigit = true ∨ d = '.' :=
      fun d hd => hx d (List.mem_cons_of_mem c hd)
    rcases hc with h | h
    · have hne : c ≠ '.' := digit_ne h (by decide)
      rw [List.filter_cons, List.filter_cons, if_pos (by simp [hne]),
        if_pos (by simp [h]), ih hr]
    · subst h
      rw [List.filter_cons, List.filter_cons, if_neg (by simp), if_neg (by decide)]
      exact ih hr

/-- On digit-or-comma strings, stripping commas is the same as keeping
digits. -/
theorem filter_ne_comma_eq_digits {x : LStr} (hx : ∀ c ∈ x, c.isDigit = true ∨ c = ',') :
    x.filter (fun c => c ≠ ',') = x.filter Char.isDigit := by
  induction x with
  | nil => rfl
  | cons c rest ih =>
    have hc := hx c (List.mem_cons_self c rest)
    have hr : ∀ d ∈ rest, d.isDigit = true ∨ d = ',' :=
      fun d hd => hx d (List.mem_cons_of_mem c hd)
    rcases hc with h | h
    · have hne : c ≠ ',' := digit_ne h (by decide)
      rw [List.filter_cons, List.filter_cons, if_pos (by simp [hne]),
        if_pos (by simp [h]), ih hr]
    · subst h
      rw [List.filter_cons, List.filter_cons, if_neg (by simp), if_neg (by decide)]
      exact ih hr

/-- Pure digit strings are fixed by the digit filter. -/
theorem filter_digit_of_digits {x : LStr} (hx : ∀ c ∈ x, c.isDigit = true) :
    x.filter Char.isDigit = x :=
  List.filter_eq_self.mpr hx

/-- Members of the digit filter are digits. -/
theorem mem_filter_digit {x : LStr} {c : Char} (h : c ∈ x.filter Char.isDigit) :
    c.isDigit = true := (List.mem_filter.mp h).2

/-- Dropping an element-plus-prefix. -/
theorem drop_length_succ_append (x : LStr) (c : Char) (y : LStr) :
    (x ++ c :: y).drop (x.length + 1) = y := by
  have h1 : x ++ c :: y = (x ++ [c]) ++ y := by simp
  have h2 : (x ++ [c]).length = x.length + 1 := by simp
  rw [h1, ← h2, List.drop_left]

end Wishly

namespace Wishly

/-- Characters of a digit-or-dot-or-comma string are not whitespace. -/
theorem sep_chars_not_ws {x y : LStr} {t : Char}
    (hx : ∀ c ∈ x, c.isDigit = true ∨ c = '.' ∨ c = ',')
    (ht : t = '.' ∨ t = ',')
    (hy : ∀ c ∈ y, c.isDigit = true) :
    ∀ c ∈ x ++ t :: y, jsWhitespace c = false := by
  intro c hc
  rcases List.mem_append.mp hc with h | h
  · rcases hx c h with h1 | h1 | h1
    · exact digit_not_whitespace h1
    · subst h1; decide
    · subst h1; decide
  · rcases List.mem_cons.mp h with h1 | h1
    · subst h1
      rcases ht with h2 | h2 <;> subst h2 <;> decide
    · exact digit_not_whitespace (hy c h1)

/-- The whitespace strip of `normalizePrice` fixes whitespace-free
strings. -/
theorem filter_not_ws_eq {s : LStr} (h : ∀ c ∈ s, jsWhitespace c = false) :
    s.filter (fun c => ¬ jsWhitespace c) = s :=
  List.filter_eq_self.mpr (fun c hc => by simp [h c hc])

/-- Code/spec agreement on shapes `x ++ "," ++ y` where `x` holds the
dots (grouping) and `y` is the pure-digit fraction: the comma is the
right-most separator and occurs once. -/
theorem sep_eq_both_comma {x y : LStr}
    (hx : ∀ c ∈ x, c.isDigit = true ∨ c = '.') (hdx : '.' ∈ x)
    (hy : ∀ c ∈ y, c.isDigit = true) :
    Scraper.normalizePrice (x ++ ',' :: y) = SpecModel.specSeparatorValue (x ++ ',' :: y) := by
  have hxd : ∀ c ∈ x, c.isDigit = true ∨ c = '.' ∨ c = ',' := by
    intro c hc
    rcases hx c hc with h | h
    · exact Or.inl h
    · exact Or.inr (Or.inl h)
  have hsws := sep_chars_not_ws hxd (Or.inr rfl) hy
  have hfilterws := filter_not_ws_eq hsws
  have hcomma_notmem_x : ',' ∉ x := by
    intro hm
    rcases hx ',' hm with h | h
    · exact absurd h (by decide)
    · exact absurd h (by decide)
  have hcomma_notmem_y : ',' ∉ y := fun hm => absurd (hy ',' hm) (by decide)
  have hdot_notmem_y : '.' ∉ y := fun hm => absurd (hy '.' hm) (by decide)
  have hC : (x ++ ',' :: y).contains ',' = true := contains_of_mem (by simp)
  have hD : (x ++ ',' :: y).contains '.' = true := contains_of_mem (by simp [hdx])
  have hliC : jsLastIndexOf (x ++ ',' :: y) ',' = x.length :=
    jsLastIndexOf_append_last x hcomma_notmem_y
  have hliD : jsLastIndexOf (x ++ ',' :: y) '.' = jsLastIndexOf x '.' := by
    refine jsLastIndexOf_append_none x ?_
    intro hm
    rcases List.mem_cons.mp hm with h | h
    · exact absurd h (by decide)
    · exact hdot_notmem_y h
  have hcmp : jsLastIndexOf (x ++ ',' :: y) ',' > jsLastIndexOf (x ++ ',' :: y) '.' := by
    rw [hliC, hliD]
    exact jsLastIndexOf_lt_length x '.'
  have hyfilter : y.filter (fun c => c ≠ '.') = y :=
    List.filter_eq_self.mpr (fun c hc => by
      have hne := digit_ne (hy c hc) (show ('.' : Char).isDigit = false by decide)
      simp [hne])
  have hfilterdot : (x ++ ',' :: y).filter (fun c => c ≠ '.') =
      x.filter Char.isDigit ++ ',' :: y := by
    rw [List.filter_append, filter_ne_dot_eq_digits hx, List.filter_cons,
      if_pos (by simp), hyfilter]
  have hxf_digits : ∀ c ∈ x.filter Char.isDigit, c.isDigit = true :=
    fun c hc => mem_filter_digit hc
  have hcomma_not_xf : ',' ∉ x.filter Char.isDigit := by
    intro hm
    exact absurd (mem_filter_digit hm) (by decide)
  have hreplace : jsReplaceFirst ',' '.' (x.filter Char.isDigit ++ ',' :: y) =
      x.filter Char.isDigit ++ '.' :: y := jsReplaceFirst_append y hcomma_not_xf
  have hcode : Scraper.normalizePrice (x ++ ',' :: y) =
      if (x.filter Char.isDigit).isEmpty && y.isEmpty then none
      else some ((digitsValue (x.filter Char.isDigit) : ℚ)
        + (digitsValue y : ℚ) / 10 ^ y.length) := by
    simp only [Scraper.normalizePrice]
    rw [hfilterws, hC, hD]
    simp only [Bool.and_self, if_true]
    rw [if_pos hcmp, hfilterdot, hreplace]
    exact jsParseFloat_digits_dot hxf_digits hy
  have hfilterdigit : (x ++ ',' :: y).filter Char.isDigit =
      x.filter Char.isDigit ++ y := by
    rw [List.filter_append, List.filter_cons, if_neg (by decide),
      filter_digit_of_digits hy]
  by_cases hemp : ((x.filter Char.isDigit).isEmpty && y.isEmpty) = true
  · -- no digits anywhere: both sides are `none`
    have hxe : x.filter Char.isDigit = [] := by
      rcases Bool.and_eq_true_iff.mp hemp with ⟨h1, _⟩
      exact List.isEmpty_iff.mp h1
    have hye : y = [] := by
      rcases Bool.and_eq_true_iff.mp hemp with ⟨_, h2⟩
      exact List.isEmpty_iff.mp h2
    have hany : (x ++ ',' :: y).any Char.isDigit = false := by
      rw [Bool.eq_false_iff]
      intro hanyt
      rcases List.any_eq_true.mp hanyt with ⟨c, hc, hdig⟩
      have : c ∈ x.filter Char.isDigit ++ y := by
        rw [← hfilterdigit]
        exact List.mem_filter.mpr ⟨hc, hdig⟩
      rw [hxe, hye] at this
      simp at this
    rw [hcode, if_pos hemp]
    simp only [SpecModel.specSeparatorValue, hany]
    norm_num
  · -- digits exist: both sides carry the same value
    have hany : (x ++ ',' :: y).any Char.isDigit = true := by
      rw [List.any_eq_true]
      rcases not_and_or.mp ((Bool.and_eq_true_iff.mpr).mt hemp) with h | h
      · rcases List.exists_mem_of_ne_nil (x.filter Char.isDigit)
          (fun he => h (by simp [he])) with ⟨c, hc⟩
        exact ⟨c, List.mem_append.mpr (Or.inl (List.mem_filter.mp hc).1),
          (List.mem_filter.mp hc).2⟩
      · rcases List.exists_mem_of_ne_nil y (fun he => h (by simp [he])) with ⟨c, hc⟩
        exact ⟨c, List.mem_append.mpr (Or.inr (List.mem_cons_of_mem _ hc)), hy c hc⟩
    have hmax : (max (jsLastIndexOf (x ++ ',' :: y) ',')
        (jsLastIndexOf (x ++ ',' :: y) '.')).toNat = x.length := by
      rw [hliC, hliD, max_eq_left (le_of_lt (jsLastIndexOf_lt_length x '.'))]
      simp
    have hpre : ((x ++ ',' :: y).take x.length).filter Char.isDigit =
        x.filter Char.isDigit := by
      rw [show x ++ ',' :: y = x ++ (',' :: y) from rfl, List.take_left]
    have hpost : ((x ++ ',' :: y).drop (x.length + 1)).filter Char.isDigit = y := by
      rw [drop_length_succ_append, filter_digit_of_digits hy]
    rw [hcode, if_neg hemp]
    simp only [SpecModel.specSeparatorValue, hany, hC, hD]
    simp only [Bool.and_self, Bool.not_true, if_true]
    rw [if_neg (by simp)]
    rw [hmax, hpre, hpost]

end Wishly

namespace Wishly

/-- Code/spec agreement on shapes `x ++ "." ++ y` where `x` holds the
commas (grouping) and `y` is the pure-digit fraction: the dot is the
right-most separator and occurs once. -/
theorem sep_eq_both_dot {x y : LStr}
    (hx : ∀ c ∈ x, c.isDigit = true ∨ c = ',') (hcx : ',' ∈ x)
    (hy : ∀ c ∈ y, c.isDigit = true) :
    Scraper.normalizePrice (x ++ '.' :: y) = SpecModel.specSeparatorValue (x ++ '.' :: y) := by
  have hxd : ∀ c ∈ x, c.isDigit = true ∨ c = '.' ∨ c = ',' := by
    intro c hc
    rcases hx c hc with h | h
    · exact Or.inl h
    · exact Or.inr (Or.inr h)
  have hsws := sep_chars_not_ws hxd (Or.inl rfl) hy
  have hfilterws := filter_not_ws_eq hsws
  have hdot_notmem_x : '.' ∉ x := by
    intro hm
    rcases hx '.' hm with h | h
    · exact absurd h (by decide)
    · exact absurd h (by decide)
  have hcomma_notmem_y : ',' ∉ y := fun hm => absurd (hy ',' hm) (by decide)
  have hdot_notmem_y : '.' ∉ y := fun hm => absurd (hy '.' hm) (by decide)
  have hC : (x ++ '.' :: y).contains ',' = true := contains_of_mem (by simp [hcx])
  have hD : (x ++ '.' :: y).contains '.' = true := contains_of_mem (by simp)
  have hliD : jsLastIndexOf (x ++ '.' :: y) '.' = x.length :=
    jsLastIndexOf_append_last x hdot_notmem_y
  have hliC : jsLastIndexOf (x ++ '.' :: y) ',' = jsLastIndexOf x ',' := by
    refine jsLastIndexOf_append_none x ?_
    intro hm
    rcases List.mem_cons.mp hm with h | h
    · exact absurd h (by decide)
    · exact hcomma_notmem_y h
  have hcmp : ¬ (jsLastIndexOf (x ++ '.' :: y) ',' > jsLastIndexOf (x ++ '.' :: y) '.') := by
    rw [hliC, hliD]
    exact not_lt.mpr (le_of_lt (jsLastIndexOf_lt_length x ','))
  have hyfilter : y.filter (fun c => c ≠ ',') = y :=
    List.filter_eq_self.mpr (fun c hc => by
      have hne := digit_ne (hy c hc) (show (',' : Char).isDigit = false by decide)
      simp [hne])
  have hfiltercomma : (x ++ '.' :: y).filter (fun c => c ≠ ',') =
      x.filter Char.isDigit ++ '.' :: y := by
    rw [List.filter_append, filter_ne_comma_eq_digits hx, List.filter_cons,
      if_pos (by simp), hyfilter]
  have hxf_digits : ∀ c ∈ x.filter Char.isDigit, c.isDigit = true :=
    fun c hc => mem_filter_digit hc
  have hcode : Scraper.normalizePrice (x ++ '.' :: y) =
      if (x.filter Char.isDigit).isEmpty && y.isEmpty then none
      else some ((digitsValue (x.filter Char.isDigit) : ℚ)
        + (digitsValue y : ℚ) / 10 ^ y.length) := by
    simp only [Scraper.normalizePrice]
    rw [hfilterws, hC, hD]
    simp only [Bool.and_self, if_true]
    rw [if_neg hcmp, hfiltercomma]
    exact jsParseFloat_digits_dot hxf_digits hy
  have hfilterdigit : (x ++ '.' :: y).filter Char.isDigit =
      x.filter Char.isDigit ++ y := by
    rw [List.filter_append, List.filter_cons, if_neg (by decide),
      filter_digit_of_digits hy]
  by_cases hemp : ((x.filter Char.isDigit).isEmpty && y.isEmpty) = true
  · have hxe : x.filter Char.isDigit = [] := by
      rcases Bool.and_eq_true_iff.mp hemp with ⟨h1, _⟩
      exact List.isEmpty_iff.mp h1
    have hye : y = [] := by
      rcases Bool.and_eq_true_iff.mp hemp with ⟨_, h2⟩
      exact List.isEmpty_iff.mp h2
    have hany : (x ++ '.' :: y).any Char.isDigit = false := by
      rw [Bool.eq_false_iff]
      intro hanyt
      rcases List.any_eq_true.mp hanyt with ⟨c, hc, hdig⟩
      have : c ∈ x.filter Char.isDigit ++ y := by
        rw [← hfilterdigit]
        exact List.mem_filter.mpr ⟨hc, hdig⟩
      rw [hxe, hye] at this
      simp at this
    rw [hcode, if_pos hemp]
    simp only [SpecModel.specSeparatorValue, hany]
    norm_num
  · have hany : (x ++ '.' :: y).any Char.isDigit = true := by
      rw [List.any_eq_true]
      rcases not_and_or.mp ((Bool.and_eq_true_iff.mpr).mt hemp) with h | h
      · rcases List.exists_mem_of_ne_nil (x.filter Char.isDigit)
          (fun he => h (by simp [he])) with ⟨c, hc⟩
        exact ⟨c, List.mem_append.mpr (Or.inl (List.mem_filter.mp hc).1),
          (List.mem_filter.mp hc).2⟩
      · rcases List.exists_mem_of_ne_nil y (fun he => h (by simp [he])) with ⟨c, hc⟩
        exact ⟨c, List.mem_append.mpr (Or.inr (List.mem_cons_of_mem _ hc)), hy c hc⟩
    have hmax : (max (jsLastIndexOf (x ++ '.' :: y) ',')
        (jsLastIndexOf (x ++ '.' :: y) '.')).toNat = x.length := by
      rw [hliC, hliD, max_eq_right (le_of_lt (jsLastIndexOf_lt_length x ','))]
      simp
    have hpre : ((x ++ '.' :: y).take x.length).filter Char.isDigit =
        x.filter Char.isDigit := by
      rw [show x ++ '.' :: y = x ++ ('.' :: y) from rfl, List.take_left]
    have hpost : ((x ++ '.' :: y).drop (x.length + 1)).filter Char.isDigit = y := by
      rw [drop_length_succ_append, filter_digit_of_digits hy]
    rw [hcode, if_neg hemp]
    simp only [SpecModel.specSeparatorValue, hany, hC, hD]
    simp only [Bool.and_self, Bool.not_true, if_true]
    rw [if_neg (by simp)]
    rw [hmax, hpre, hpost]

end Wishly

namespace Wishly

/-- Code/spec agreement on `x ++ "," ++ y` with `x`, `y` pure digit
strings: the single-separator rule. -/
theorem sep_eq_single_comma {x y : LStr}
    (hx : ∀ c ∈ x, c.isDigit = true) (hy : ∀ c ∈ y, c.isDigit = true) :
    Scraper.normalizePrice (x ++ ',' :: y) = SpecModel.specSeparatorValue (x ++ ',' :: y) := by
  have hxd : ∀ c ∈ x, c.isDigit = true ∨ c = '.' ∨ c = ',' :=
    fun c hc => Or.inl (hx c hc)
  have hsws := sep_chars_not_ws hxd (Or.inr rfl) hy
  have hfilterws := filter_not_ws_eq hsws
  have hcomma_notmem_x : ',' ∉ x := fun hm => absurd (hx ',' hm) (by decide)
  have hcomma_notmem_y : ',' ∉ y := fun hm => absurd (hy ',' hm) (by decide)
  have hdot_notmem : '.' ∉ x ++ ',' :: y := by
    intro hm
    rcases List.mem_append.mp hm with h | h
    · exact absurd (hx '.' h) (by decide)
    · rcases List.mem_cons.mp h with h1 | h1
      · exact absurd h1 (by decide)
      · exact absurd (hy '.' h1) (by decide)
  have hC : (x ++ ',' :: y).contains ',' = true := contains_of_mem (by simp)
  have hD : (x ++ ',' :: y).contains '.' = false := contains_of_not_mem hdot_notmem
  have hsplit : jsSplit ',' (x ++ ',' :: y) = [x, y] := by
    rw [jsSplit_append y hcomma_notmem_x, jsSplit_not_mem hcomma_notmem_y]
  have hfiltercomma : (x ++ ',' :: y).filter (fun c => c ≠ ',') = x ++ y := by
    rw [List.filter_append, List.filter_cons, if_neg (by simp)]
    rw [List.filter_eq_self.mpr (fun c hc => by
      have hne := digit_ne (hx c hc) (show (',' : Char).isDigit = false by decide)
      simp [hne])]
    rw [List.filter_eq_self.mpr (fun c hc => by
      have hne := digit_ne (hy c hc) (show (',' : Char).isDigit = false by decide)
      simp [hne])]
  have hfilterdigit : (x ++ ',' :: y).filter Char.isDigit = x ++ y := by
    rw [List.filter_append, List.filter_cons, if_neg (by decide),
      filter_digit_of_digits hx, filter_digit_of_digits hy]
  have hcount : (x ++ ',' :: y).count ',' = 1 := by
    rw [List.count_append, List.count_cons_self,
      List.count_eq_zero.mpr hcomma_notmem_x, List.count_eq_zero.mpr hcomma_notmem_y]
  have hli : jsLastIndexOf (x ++ ',' :: y) ',' = x.length :=
    jsLastIndexOf_append_last x hcomma_notmem_y
  have hpost : (((x ++ ',' :: y).drop (x.length + 1)).filter Char.isDigit) = y := by
    rw [drop_length_succ_append, filter_digit_of_digits hy]
  have hpre : (((x ++ ',' :: y).take x.length).filter Char.isDigit) = x := by
    rw [show x ++ ',' :: y = x ++ (',' :: y) from rfl, List.take_left,
      filter_digit_of_digits hx]
  have hcode : Scraper.normalizePrice (x ++ ',' :: y) =
      if y.length ≤ 2 then
        (if x.isEmpty && y.isEmpty then none
         else some ((digitsValue x : ℚ) + (digitsValue y : ℚ) / 10 ^ y.length))
      else some ((digitsValue (x ++ y) : ℚ)) := by
    simp only [Scraper.normalizePrice]
    rw [hfilterws, hC, hD]
    simp only [Bool.and_false, Bool.false_eq_true, if_false, if_true]
    rw [hsplit]
    by_cases hy2 : y.length ≤ 2
    · rw [if_pos (by simp [hy2]), if_pos hy2,
        jsReplaceFirst_append y hcomma_notmem_x,
        jsParseFloat_digits_dot hx hy]
    · rw [if_neg (by simp [hy2]), if_neg hy2, hfiltercomma,
        jsParseFloat_digits (fun c hc => by
          rcases List.mem_append.mp hc with h | h
          · exact hx c h
          · exact hy c h)]
      have hyne : y ≠ [] := by
        intro he
        subst he
        simp at hy2
      rw [if_neg (by simp [hyne])]
  have hspec : SpecModel.specSeparatorValue (x ++ ',' :: y) =
      if (x ++ y).isEmpty then none
      else if 1 ≤ y.length ∧ y.length ≤ 2 then
        some ((digitsValue x : ℚ) + (digitsValue y : ℚ) / 10 ^ y.length)
      else some ((digitsValue (x ++ y) : ℚ)) := by
    by_cases hemp : (x ++ y).isEmpty = true
    · have hxy : x = [] ∧ y = [] :=
        List.append_eq_nil.mp (List.isEmpty_iff.mp hemp)
      have hany : (x ++ ',' :: y).any Char.isDigit = false := by
        rw [Bool.eq_false_iff]
        intro hanyt
        rcases List.any_eq_true.mp hanyt with ⟨c, hc, hdig⟩
        have hcm : c ∈ x ++ y := by
          rw [← hfilterdigit]
          exact List.mem_filter.mpr ⟨hc, hdig⟩
        rw [hxy.1, hxy.2] at hcm
        simp at hcm
      simp only [SpecModel.specSeparatorValue, hany]
      rw [if_pos hemp]
      norm_num
    · have hany : (x ++ ',' :: y).any Char.isDigit = true := by
        rw [List.any_eq_true]
        rcases List.exists_mem_of_ne_nil (x ++ y)
          (fun he => hemp (by simp [he])) with ⟨c, hc⟩
        rcases List.mem_append.mp hc with h | h
        · exact ⟨c, List.mem_append.mpr (Or.inl h), hx c h⟩
        · exact ⟨c, List.mem_append.mpr (Or.inr (List.mem_cons_of_mem _ h)), hy c h⟩
      simp only [SpecModel.specSeparatorValue, hany, hC, hD]
      rw [if_neg hemp, if_neg (by simp), if_neg (by simp)]
      rw [if_pos (by simp)]
      simp only [if_true]
      rw [if_pos hcount, hli]
      simp only [Int.toNat_natCast]
      rw [hpost, hpre, hfilterdigit]
  rw [hcode, hspec]
  by_cases hy0 : y.length = 0
  · have hye : y = [] := List.length_eq_zero.mp hy0
    subst hye
    by_cases hxe : x = []
    · subst hxe
      norm_num
    · rw [if_pos (by norm_num), if_neg (by simp [hxe]), if_neg (by simp [hxe])]
      rw [if_neg (by norm_num)]
      show some ((digitsValue x : ℚ) + (digitsValue ([] : LStr) : ℚ) / 10 ^ (0:ℕ)) = _
      norm_num [digitsValue]
  · by_cases hy2 : y.length ≤ 2
    · have hyne : y ≠ [] := fun he => hy0 (by simp [he])
      rw [if_pos hy2, if_neg (by simp [hyne]), if_neg (by simp [hyne, List.append_eq_nil])]
      rw [if_pos ⟨by omega, hy2⟩]
    · have hyne : y ≠ [] := by
        intro he
        subst he
        simp at hy2
      rw [if_neg hy2, if_neg (by simp [hyne, List.append_eq_nil])]
      rw [if_neg (by omega)]

end Wishly

namespace Wishly

/-- Code/spec agreement on `x ++ "." ++ y` with `x`, `y` pure digit
strings: the single-separator rule for the dot. -/
theorem sep_eq_single_dot {x y : LStr}
    (hx : ∀ c ∈ x, c.isDigit = true) (hy : ∀ c ∈ y, c.isDigit = true) :
    Scraper.normalizePrice (x ++ '.' :: y) = SpecModel.specSeparatorValue (x ++ '.' :: y) := by
  have hxd : ∀ c ∈ x, c.isDigit = true ∨ c = '.' ∨ c = ',' :=
    fun c hc => Or.inl (hx c hc)
  have hsws := sep_chars_not_ws hxd (Or.inl rfl) hy
  have hfilterws := filter_not_ws_eq hsws
  have hdot_notmem_x : '.' ∉ x := fun hm => absurd (hx '.' hm) (by decide)
  have hdot_notmem_y : '.' ∉ y := fun hm => absurd (hy '.' hm) (by decide)
  have hcomma_notmem : ',' ∉ x ++ '.' :: y := by
    intro hm
    rcases List.mem_append.mp hm with h | h
    · exact absurd (hx ',' h) (by decide)
    · rcases List.mem_cons.mp h with h1 | h1
      · exact absurd h1 (by decide)
      · exact absurd (hy ',' h1) (by decide)
  have hC : (x ++ '.' :: y).contains ',' = false := contains_of_not_mem hcomma_notmem
  have hD : (x ++ '.' :: y).contains '.' = true := contains_of_mem (by simp)
  have hsplit : jsSplit '.' (x ++ '.' :: y) = [x, y] := by
    rw [jsSplit_append y hdot_notmem_x, jsSplit_not_mem hdot_notmem_y]
  have hfilterdot : (x ++ '.' :: y).filter (fun c => c ≠ '.') = x ++ y := by
    rw [List.filter_append, List.filter_cons, if_neg (by simp)]
    rw [List.filter_eq_self.mpr (fun c hc => by
      have hne := digit_ne (hx c hc) (show ('.' : Char).isDigit = false by decide)
      simp [hne])]
    rw [List.filter_eq_self.mpr (fun c hc => by
      have hne := digit_ne (hy c hc) (show ('.' : Char).isDigit = false by decide)
      simp [hne])]
  have hfilterdigit : (x ++ '.' :: y).filter Char.isDigit = x ++ y := by
    rw [List.filter_append, List.filter_cons, if_neg (by decide),
      filter_digit_of_digits hx, filter_digit_of_digits hy]
  have hcount : (x ++ '.' :: y).count '.' = 1 := by
    rw [List.count_append, List.count_cons_self,
      List.count_eq_zero.mpr hdot_notmem_x, List.count_eq_zero.mpr hdot_notmem_y]
  have hli : jsLastIndexOf (x ++ '.' :: y) '.' = x.length :=
    jsLastIndexOf_append_last x hdot_notmem_y
  have hpost : (((x ++ '.' :: y).drop (x.length + 1)).filter Char.isDigit) = y := by
    rw [drop_length_succ_append, filter_digit_of_digits hy]
  have hpre : (((x ++ '.' :: y).take x.length).filter Char.isDigit) = x := by
    rw [show x ++ '.' :: y = x ++ ('.' :: y) from rfl, List.take_left,
      filter_digit_of_digits hx]
  have hcode : Scraper.normalizePrice (x ++ '.' :: y) =
      if y.length ≤ 2 then
        (if x.isEmpty && y.isEmpty then none
         else some ((digitsValue x : ℚ) + (digitsValue y : ℚ) / 10 ^ y.length))
      else some ((digitsValue (x ++ y) : ℚ)) := by
    simp only [Scraper.normalizePrice]
    rw [hfilterws, hC, hD]
    simp only [Bool.false_and, Bool.false_eq_true, if_false, if_true]
    rw [hsplit]
    by_cases hy2 : y.length ≤ 2
    · rw [if_pos (by simp [hy2]), if_pos hy2, jsParseFloat_digits_dot hx hy]
    · rw [if_neg (by simp [hy2]), if_neg hy2]
      rw [if_pos (by simp), hfilterdot,
        jsParseFloat_digits (fun c hc => by
          rcases List.mem_append.mp hc with h | h
          · exact hx c h
          · exact hy c h)]
      have hyne : y ≠ [] := by
        intro he
        subst he
        simp at hy2
      rw [if_neg (by simp [hyne])]
  have hspec : SpecModel.specSeparatorValue (x ++ '.' :: y) =
      if (x ++ y).isEmpty then none
      else if 1 ≤ y.length ∧ y.length ≤ 2 then
        some ((digitsValue x : ℚ) + (digitsValue y : ℚ) / 10 ^ y.length)
      else some ((digitsValue (x ++ y) : ℚ)) := by
    by_cases hemp : (x ++ y).isEmpty = true
    · have hxy : x = [] ∧ y = [] :=
        List.append_eq_nil.mp (List.isEmpty_iff.mp hemp)
      have hany : (x ++ '.' :: y).any Char.isDigit = false := by
        rw [Bool.eq_false_iff]
        intro hanyt
        rcases List.any_eq_true.mp hanyt with ⟨c, hc, hdig⟩
        have hcm : c ∈ x ++ y := by
          rw [← hfilterdigit]
          exact List.mem_filter.mpr ⟨hc, hdig⟩
        rw [hxy.1, hxy.2] at hcm
        simp at hcm
      simp only [SpecModel.specSeparatorValue, hany]
      rw [if_pos hemp]
      norm_num
    · have hany : (x ++ '.' :: y).any Char.isDigit = true := by
        rw [List.any_eq_true]
        rcases List.exists_mem_of_ne_nil (x ++ y)
          (fun he => hemp (by simp [he])) with ⟨c, hc⟩
        rcases List.mem_append.mp hc with h | h
        · exact ⟨c, List.mem_append.mpr (Or.inl h), hx c h⟩
        · exact ⟨c, List.mem_append.mpr (Or.inr (List.mem_cons_of_mem _ h)), hy c h⟩
      simp only [SpecModel.specSeparatorValue, hany, hC, hD]
      rw [if_neg hemp, if_neg (by simp), if_neg (by simp)]
      rw [if_pos (by simp)]
      simp only [Bool.false_eq_true, if_false]
      rw [if_pos hcount, hli]
      simp only [Int.toNat_natCast]
      rw [hpost, hpre, hfilterdigit]
  rw [hcode, hspec]
  by_cases hy0 : y.length = 0
  · have hye : y = [] := List.length_eq_zero.mp hy0
    subst hye
    by_cases hxe : x = []
    · subst hxe
      norm_num
    · rw [if_pos (by norm_num), if_neg (by simp [hxe]), if_neg (by simp [hxe])]
      rw [if_neg (by norm_num)]
      show some ((digitsValue x : ℚ) + (digitsValue ([] : LStr) : ℚ) / 10 ^ (0:ℕ)) = _
      norm_num [digitsValue]
  · by_cases hy2 : y.length ≤ 2
    · have hyne : y ≠ [] := fun he => hy0 (by simp [he])
      rw [if_pos hy2, if_neg (by simp [hyne]), if_neg (by simp [hyne, List.append_eq_nil])]
      rw [if_pos ⟨by omega, hy2⟩]
    · have hyne : y ≠ [] := by
        intro he
        subst he
        simp at hy2
      rw [if_neg hy2, if_neg (by simp [hyne, List.append_eq_nil])]
      rw [if_neg (by omega)]

end Wishly

namespace Wishly

/-- Code/spec agreement on digit-or-comma strings with at least two
commas (all grouping). -/
theorem sep_eq_multi_comma {s : LStr}
    (hs : ∀ c ∈ s, c.isDigit = true ∨ c = ',') (hn : 2 ≤ s.count ',') :
    Scraper.normalizePrice s = SpecModel.specSeparatorValue s := by
  have hsws : ∀ c ∈ s, jsWhitespace c = false := by
    intro c hc
    rcases hs c hc with h | h
    · exact digit_not_whitespace h
    · subst h; decide
  have hfilterws := filter_not_ws_eq hsws
  have hmemC : ',' ∈ s := List.count_pos_iff.mp (by omega)
  have hdot_notmem : '.' ∉ s := by
    intro hm
    rcases hs '.' hm with h | h
    · exact absurd h (by decide)
    · exact absurd h (by decide)
  have hC : s.contains ',' = true := contains_of_mem hmemC
  have hD : s.contains '.' = false := contains_of_not_mem hdot_notmem
  have hlen : (jsSplit ',' s).length ≠ 2 := by
    rw [jsSplit_length]
    omega
  have hfd : ∀ c ∈ s.filter Char.isDigit, c.isDigit = true :=
    fun c hc => mem_filter_digit hc
  have hcode : Scraper.normalizePrice s =
      if (s.filter Char.isDigit).isEmpty then none
      else some ((digitsValue (s.filter Char.isDigit) : ℚ)) := by
    simp only [Scraper.normalizePrice]
    rw [hfilterws, hC, hD]
    simp only [Bool.and_false, Bool.false_eq_true, if_false, if_true]
    rw [if_neg (by simp [hlen]), filter_ne_comma_eq_digits hs,
      jsParseFloat_digits hfd]
  rw [hcode]
  by_cases hemp : (s.filter Char.isDigit).isEmpty = true
  · have hany : s.any Char.isDigit = false := by
      rw [Bool.eq_false_iff]
      intro hanyt
      rcases List.any_eq_true.mp hanyt with ⟨c, hc, hdig⟩
      have : c ∈ s.filter Char.isDigit := List.mem_filter.mpr ⟨hc, hdig⟩
      rw [List.isEmpty_iff.mp hemp] at this
      simp at this
    rw [if_pos hemp]
    simp only [SpecModel.specSeparatorValue, hany]
    norm_num
  · have hany : s.any Char.isDigit = true := by
      rw [List.any_eq_true]
      rcases List.exists_mem_of_ne_nil (s.filter Char.isDigit)
        (fun he => hemp (by simp [he])) with ⟨c, hc⟩
      exact ⟨c, (List.mem_filter.mp hc).1, (List.mem_filter.mp hc).2⟩
    rw [if_neg hemp]
    simp only [SpecModel.specSeparatorValue, hany, hC, hD]
    rw [if_neg (by simp), if_neg (by simp), if_pos (by simp)]
    simp only [if_true]
    rw [if_neg (by omega)]

/-- Code/spec agreement on digit-or-dot strings with at least two dots
(all grouping). -/
theorem sep_eq_multi_dot {s : LStr}
    (hs : ∀ c ∈ s, c.isDigit = true ∨ c = '.') (hn : 2 ≤ s.count '.') :
    Scraper.normalizePrice s = SpecModel.specSeparatorValue s := by
  have hsws : ∀ c ∈ s, jsWhitespace c = false := by
    intro c hc
    rcases hs c hc with h | h
    · exact digit_not_whitespace h
    · subst h; decide
  have hfilterws := filter_not_ws_eq hsws
  have hmemD : '.' ∈ s := List.count_pos_iff.mp (by omega)
  have hcomma_notmem : ',' ∉ s := by
    intro hm
    rcases hs ',' hm with h | h
    · exact absurd h (by decide)
    · exact absurd h (by decide)
  have hC : s.contains ',' = false := contains_of_not_mem hcomma_notmem
  have hD : s.contains '.' = true := contains_of_mem hmemD
  have hlen2 : (jsSplit '.' s).length ≠ 2 := by
    rw [jsSplit_length]
    omega
  have hlen3 : 2 ≤ (jsSplit '.' s).length := by
    rw [jsSplit_length]
    omega
  have hfd : ∀ c ∈ s.filter Char.isDigit, c.isDigit = true :=
    fun c hc => mem_filter_digit hc
  have hcode : Scraper.normalizePrice s =
      if (s.filter Char.isDigit).isEmpty then none
      else some ((digitsValue (s.filter Char.isDigit) : ℚ)) := by
    simp only [Scraper.normalizePrice]
    rw [hfilterws, hC, hD]
    simp only [Bool.false_and, Bool.false_eq_true, if_false, if_true]
    rw [if_neg (by simp [hlen2]), if_pos hlen3, filter_ne_dot_eq_digits hs,
      jsParseFloat_digits hfd]
  rw [hcode]
  by_cases hemp : (s.filter Char.isDigit).isEmpty = true
  · have hany : s.any Char.isDigit = false := by
      rw [Bool.eq_false_iff]
      intro hanyt
      rcases List.any_eq_true.mp hanyt with ⟨c, hc, hdig⟩
      have : c ∈ s.filter Char.isDigit := List.mem_filter.mpr ⟨hc, hdig⟩
      rw [List.isEmpty_iff.mp hemp] at this
      simp at this
    rw [if_pos hemp]
    simp only [SpecModel.specSeparatorValue, hany]
    norm_num
  · have hany : s.any Char.isDigit = true := by
      rw [List.any_eq_true]
      rcases List.exists_mem_of_ne_nil (s.filter Char.isDigit)
        (fun he => hemp (by simp [he])) with ⟨c, hc⟩
      exact ⟨c, (List.mem_filter.mp hc).1, (List.mem_filter.mp hc).2⟩
    rw [if_neg hemp]
    simp only [SpecModel.specSeparatorValue, hany, hC, hD]
    rw [if_neg (by simp), if_neg (by simp), if_pos (by simp)]
    simp only [Bool.false_eq_true, if_false]
    rw [if_neg (by omega)]

/-- Code/spec agreement on pure digit strings (no separator at all). -/
theorem sep_eq_no_sep {s : LStr} (hs : ∀ c ∈ s, c.isDigit = true) :
    Scraper.normalizePrice s = SpecModel.specSeparatorValue s := by
  have hsws : ∀ c ∈ s, jsWhitespace c = false :=
    fun c hc => digit_not_whitespace (hs c hc)
  have hfilterws := filter_not_ws_eq hsws
  have hcomma_notmem : ',' ∉ s := fun hm => absurd (hs ',' hm) (by decide)
  have hdot_notmem : '.' ∉ s := fun hm => absurd (hs '.' hm) (by decide)
  have hC : s.contains ',' = false := contains_of_not_mem hcomma_notmem
  have hD : s.contains '.' = false := contains_of_not_mem hdot_notmem
  have hcode : Scraper.normalizePrice s =
      if s.isEmpty then none else some ((digitsValue s : ℚ)) := by
    simp only [Scraper.normalizePrice]
    rw [hfilterws, hC, hD]
    simp only [Bool.and_self, Bool.false_eq_true, if_false]
    exact jsParseFloat_digits hs
  rw [hcode]
  by_cases hemp : s.isEmpty = true
  · have hse : s = [] := List.isEmpty_iff.mp hemp
    subst hse
    simp [SpecModel.specSeparatorValue]
  · have hne : s ≠ [] := fun he => hemp (by simp [he])
    have hany : s.any Char.isDigit = true := by
      rw [List.any_eq_true]
      rcases List.exists_mem_of_ne_nil s hne with ⟨c, hc⟩
      exact ⟨c, hc, hs c hc⟩
    rw [if_neg hemp]
    simp only [SpecModel.specSeparatorValue, hany, hC, hD]
    rw [if_neg (by simp), if_neg (by simp), if_neg (by simp)]
    rw [filter_digit_of_digits hs]

end Wishly

namespace Wishly

/-- C4: The price normalizer meets the spec's reference outputs and is
total: the extraction pipeline yields `(1234, "USD")` for `"$12.34"`,
`(129000, "GBP")` for `"£1,290"`, and `(8338900, "RUB")` (the
last/discounted price) for `"RRP: RUB 166,777 (-50%) RUB 83,389"`;
`parsePriceString` yields `none` ("absent") on the empty string; and on
every input string the normalizer yields either "absent" or a
well-formed amount/currency pair, never an exception. -/
theorem price_normalizer_reference_outputs :
    (Scraper.pipelinePriceRounded (lc "$12.34") = some 1234
      ∧ Scraper.detectCurrency (lc "$12.34") none = lc "USD")
    ∧ (Scraper.pipelinePriceRounded (lc "£1,290") = some 129000
      ∧ Scraper.detectCurrency (lc "£1,290") none = lc "GBP")
    ∧ (Scraper.pipelinePriceRounded (lc "RRP: RUB 166,777 (-50%) RUB 83,389") = some 8338900
      ∧ Scraper.detectCurrency (lc "RRP: RUB 166,777 (-50%) RUB 83,389") none = lc "RUB")
    ∧ Scrapers.parsePriceString (lc "") = none
    ∧ (∀ s : LStr, Scrapers.parsePriceString s = none
        ∨ ∃ pi : Scrapers.PriceInfo, Scrapers.parsePriceString s = some pi
          ∧ pi.currency ∈ [lc "USD", lc "GBP", lc "EUR", lc "JPY", lc "RUB"]) := by
  refine ⟨⟨?_, by decide⟩, ⟨?_, by decide⟩, ⟨?_, by decide⟩, by decide, ?_⟩
  · -- "$12.34": the single run "12.34" parses as 12.34, times 100
    have h1 : Scraper.pipelinePriceRounded (lc "$12.34")
        = (jsParseFloat (lc "12" ++ '.' :: lc "34")).map (fun q => mathRound (q * 100)) := by
      rfl
    rw [h1, jsParseFloat_digits_dot (by decide) (by decide), if_neg (by decide)]
    have h2 : digitsValue (lc "12") = 12 := by decide
    have h3 : digitsValue (lc "34") = 34 := by decide
    have h4 : (lc "34").length = 2 := by decide
    simp only [Option.map_some', h2, h3, h4]
    norm_num [mathRound]
  · -- "£1,290": thousands comma stripped, 1290 * 100
    have h1 : Scraper.pipelinePriceRounded (lc "£1,290")
        = (jsParseFloat (lc "1290")).map (fun q => mathRound (q * 100)) := by
      rfl
    rw [h1, jsParseFloat_digits (by decide), if_neg (by decide)]
    have h2 : digitsValue (lc "1290") = 1290 := by decide
    simp only [Option.map_some', h2]
    norm_num [mathRound]
  · -- the RUB string: the percentage-discount capture "83,389" wins
    have h1 : Scraper.pipelinePriceRounded (lc "RRP: RUB 166,777 (-50%) RUB 83,389")
        = (jsParseFloat (lc "83389")).map (fun q => mathRound (q * 100)) := by
      rfl
    rw [h1, jsParseFloat_digits (by decide), if_neg (by decide)]
    have h2 : digitsValue (lc "83389") = 83389 := by decide
    simp only [Option.map_some', h2]
    norm_num [mathRound]
  intro s
  unfold Scrapers.parsePriceString
  split
  · exact Or.inl rfl
  · dsimp only
    split
    · exact Or.inl rfl
    · right
      refine ⟨_, rfl, ?_⟩
      split
      · simp
      · split
        · simp
        · split
          · simp
          · split
            · simp
            · simp

end Wishly

namespace Wishly

/-- C5 (counterexample): on `"1,2.3,4"` the right-most separator is the
second comma, so the spec's rule yields `123.4`; the code strips the
dots, turns only the *first* comma into a decimal point, and `parseFloat`
truncates at the remaining comma, yielding `1.23`. -/
theorem separator_rule_counterexample :
    Scraper.normalizePrice (lc "1,2.3,4")
        = some (((1 : ℕ) : ℚ) + ((23 : ℕ) : ℚ) / 10 ^ 2)
    ∧ SpecModel.specSeparatorValue (lc "1,2.3,4")
        = some (((123 : ℕ) : ℚ) + ((4 : ℕ) : ℚ) / 10 ^ 1)
    ∧ Scraper.normalizePrice (lc "1,2.3,4")
        ≠ SpecModel.specSeparatorValue (lc "1,2.3,4") := by
  have h1 : Scraper.normalizePrice (lc "1,2.3,4")
      = some (((1 : ℕ) : ℚ) + ((23 : ℕ) : ℚ) / 10 ^ 2) := by rfl
  have h2 : SpecModel.specSeparatorValue (lc "1,2.3,4")
      = some (((123 : ℕ) : ℚ) + ((4 : ℕ) : ℚ) / 10 ^ 1) := by rfl
  refine ⟨h1, h2, ?_⟩
  rw [h1, h2]
  intro h
  rw [Option.some_inj] at h
  norm_num at h

end Wishly

namespace Wishly

/-- C5 (amended): over price strings (digits, `,`, `.`), `normalizePrice`
implements the spec's separator rule whenever the separator designated as
decimal occurs exactly once: with both kinds present, the kind of the
right-most occurrence is decimal (shapes `x,y` and `x.y` with the other
kind inside `x` and a pure-digit tail); with a single kind, a unique
occurrence is decimal iff followed by 1–2 digits (at the value level, a
trailing separator behaves as grouping), repeated occurrences are all
grouping, and a separator-free digit string is its plain value. -/
theorem separator_rule_amended :
    (∀ x y : LStr, (∀ c ∈ x, c.isDigit = true ∨ c = '.') → '.' ∈ x →
        (∀ c ∈ y, c.isDigit = true) →
        Scraper.normalizePrice (x ++ ',' :: y) = SpecModel.specSeparatorValue (x ++ ',' :: y))
    ∧ (∀ x y : LStr, (∀ c ∈ x, c.isDigit = true ∨ c = ',') → ',' ∈ x →
        (∀ c ∈ y, c.isDigit = true) →
        Scraper.normalizePrice (x ++ '.' :: y) = SpecModel.specSeparatorValue (x ++ '.' :: y))
    ∧ (∀ x y : LStr, (∀ c ∈ x, c.isDigit = true) → (∀ c ∈ y, c.isDigit = true) →
        Scraper.normalizePrice (x ++ ',' :: y) = SpecModel.specSeparatorValue (x ++ ',' :: y)
        ∧ Scraper.normalizePrice (x ++ '.' :: y) = SpecModel.specSeparatorValue (x ++ '.' :: y))
    ∧ (∀ s : LStr, (∀ c ∈ s, c.isDigit = true ∨ c = ',') → 2 ≤ s.count ',' →
        Scraper.normalizePrice s = SpecModel.specSeparatorValue s)
    ∧ (∀ s : LStr, (∀ c ∈ s, c.isDigit = true ∨ c = '.') → 2 ≤ s.count '.' →
        Scraper.normalizePrice s = SpecModel.specSeparatorValue s)
    ∧ (∀ s : LStr, (∀ c ∈ s, c.isDigit = true) →
        Scraper.normalizePrice s = SpecModel.specSeparatorValue s) := by
  refine ⟨?_, ?_, ?_, ?_, ?_, ?_⟩
  · exact fun x y hx hdx hy => sep_eq_both_comma hx hdx hy
  · exact fun x y hx hcx hy => sep_eq_both_dot hx hcx hy
  · exact fun x y hx hy => ⟨sep_eq_single_comma hx hy, sep_eq_single_dot hx hy⟩
  · exact fun s hs hn => sep_eq_multi_comma hs hn
  · exact fun s hs hn => sep_eq_multi_dot hs hn
  · exact fun s hs => sep_eq_no_sep hs

/-- Instantiation of `separator_rule_amended` on `"1.234,56"` (both
separators) and `"1,290"` (single comma, three-digit tail). -/
theorem separator_rule_amended_witness :
    Scraper.normalizePrice (lc "1.234" ++ ',' :: lc "56")
        = SpecModel.specSeparatorValue (lc "1.234" ++ ',' :: lc "56")
    ∧ Scraper.normalizePrice (lc "1" ++ ',' :: lc "290")
        = SpecModel.specSeparatorValue (lc "1" ++ ',' :: lc "290") :=
  ⟨separator_rule_amended.1 (lc "1.234") (lc "56")
      (by decide) (by decide) (by decide),
   (separator_rule_amended.2.2.1 (lc "1") (lc "290")
      (by decide) (by decide)).1⟩

end Wishly

namespace Wishly

/-- C6 (counterexample): a document whose structured-data availability
field says `InStock` but which also contains the text `sold out`.  The
spec's precedence (structured data at step 2, before textual negatives at
step 3) yields in-stock; the generic path of the code checks its negative
patterns first and yields not-in-stock. -/
theorem stock_precedence_counterexample :
    Scraper.genericInferStock (lc "\"availability\": \"InStock\" sold out") = false
    ∧ SpecModel.specInferStock [] (lc "\"availability\": \"InStock\" sold out") true = true := by
  constructor
  · decide
  · decide

end Wishly

namespace Wishly

/-- C6 (amended): on the generic path size entries carry no availability
marks and are not consulted; any negative indicator — textual pattern or
structured-data `OutOfStock`/`SoldOut`/`false` marker — is checked first
and forces not-in-stock even when structured data says `InStock`;
otherwise the result is in-stock (a positive indicator re-affirms the
optimistic default).  On the Amazon variant the result is in-stock iff an
add-to-cart control is present without an `unavailable` notice, or some
size entry is marked available; with no signal it defaults to false. -/
theorem stock_precedence_amended :
    (∀ html : LStr, Scraper.hasOutOfStockIndicator html = true →
        Scraper.genericInferStock html = false)
    ∧ (∀ html : LStr, Scraper.hasOutOfStockIndicator html = false →
        Scraper.genericInferStock html = true)
    ∧ (∀ (sizes : List Scrapers.SizeInfo) (addToCart unavailable : Bool),
        (sizes.any (fun s => s.inStock) = true →
          Scrapers.amazonInStock sizes addToCart unavailable = true)
        ∧ (sizes.any (fun s => s.inStock) = false →
          Scrapers.amazonInStock sizes addToCart unavailable = (addToCart && !unavailable))) := by
  refine ⟨?_, ?_, ?_⟩
  · intro html h
    simp [Scraper.genericInferStock, h]
  · intro html h
    simp [Scraper.genericInferStock, h]
  · intro sizes addToCart unavailable
    constructor
    · intro h
      have hne : 0 < sizes.length := by
        rcases List.any_eq_true.mp h with ⟨s, hs, _⟩
        exact List.length_pos.mpr (List.ne_nil_of_mem hs)
      simp [Scrapers.amazonInStock, h, hne]
    · intro h
      simp [Scrapers.amazonInStock, h]

/-- Instantiation of `stock_precedence_amended` on concrete documents and
Amazon signal states. -/
theorem stock_precedence_amended_witness :
    Scraper.genericInferStock (lc "<p>sold out</p>") = false
    ∧ Scraper.genericInferStock (lc "<p>add to cart</p>") = true
    ∧ Scrapers.amazonInStock [{ name := lc "M", inStock := true }] false true = true
    ∧ Scrapers.amazonInStock [] true false = (true && !false) :=
  ⟨stock_precedence_amended.1 (lc "<p>sold out</p>") (by decide),
   stock_precedence_amended.2.1 (lc "<p>add to cart</p>") (by decide),
   (stock_precedence_amended.2.2 [{ name := lc "M", inStock := true }] false true).1 (by decide),
   (stock_precedence_amended.2.2 [] true false).2 (by decide)⟩

end Wishly

namespace Wishly

/-- A deduplication of a nonempty list is nonempty. -/
theorem jsSetDedup_ne_nil {l : List LStr} (h : l ≠ []) : jsSetDedup l ≠ [] := by
  cases l with
  | nil => exact absurd rfl h
  | cons x xs => simp [jsSetDedup, jsSetDedupAux]

/-- C7: generic fallback extraction always assembles a well-formed
product: over every possible extraction result (covering every
syntactically valid HTML document), the `images` list of
`scrapeWithCheerio`, of `processScrapedData` and of the default
`BaseScraper.scrape` orchestration is never empty (the placeholder is
substituted), `inStock` is a definite boolean, and size/color lists may
be empty. -/
theorem generic_fallback_wellformed :
    (∀ raw : Scraper.RawExtraction,
        (Scraper.scrapeWithCheerioResult raw).images ≠ []
        ∧ ((Scraper.scrapeWithCheerioResult raw).inStock = true
            ∨ (Scraper.scrapeWithCheerioResult raw).inStock = false))
    ∧ (∀ raw : Scraper.RawExtraction, (Scraper.processScrapedData raw).images ≠ [])
    ∧ (∀ (caps : Scrapers.Capabilities) (pageUrl : LStr),
        (Scrapers.scrape caps pageUrl).images ≠ [])
    ∧ (∃ raw : Scraper.RawExtraction,
        (Scraper.scrapeWithCheerioResult raw).availableSizes = []
        ∧ (Scraper.scrapeWithCheerioResult raw).availableColors = none) := by
  refine ⟨?_, ?_, ?_, ⟨Fixtures.sampleRaw, by rfl, by rfl⟩⟩
  · intro raw
    constructor
    · show (if raw.images.length > 0 then jsSetDedup raw.images
        else [lc "https://via.placeholder.com/400"]) ≠ []
      split
      · next h => exact jsSetDedup_ne_nil (by intro he; rw [he] at h; simp at h)
      · simp
    · rcases h : (Scraper.scrapeWithCheerioResult raw).inStock with _ | _
      · exact Or.inr rfl
      · exact Or.inl rfl
  · intro raw
    show (if (raw.images.map (Scraper.resolveImageUrl raw.url)).length > 0
        then jsSetDedup (raw.images.map (Scraper.resolveImageUrl raw.url))
        else [lc "https://via.placeholder.com/400"]) ≠ []
    split
    · next h => exact jsSetDedup_ne_nil (by intro he; rw [he] at h; simp at h)
    · simp
  · intro caps pageUrl
    show (if (caps.images.map (Scrapers.resolveUrl pageUrl)).length > 0
        then jsSetDedup (caps.images.map (Scrapers.resolveUrl pageUrl))
        else [lc "https://via.placeholder.com/400"]) ≠ []
    split
    · next h => exact jsSetDedup_ne_nil (by intro he; rw [he] at h; simp at h)
    · simp

end Wishly

namespace Wishly

/-- C3: for every URL whose normalized hostname has no registry entry,
`routeAndScrape` fails with the (annotated) unregistered-domain error and
its event trace is empty: no page is opened and no navigation happens,
whatever the environment would have answered. -/
theorem unregistered_domain_no_navigation :
    ∀ (url : LStr) (env : Router.RouterEnv),
      Router.lookupRegistry (Router.normalizeDomain (Router.hostnameOf url)) = none →
      Router.routeAndScrape url env =
        (Except.error (Router.routerErrorMessage url
            (Router.normalizeDomain (Router.hostnameOf url))
            (Router.unregisteredDomainMessage
              (Router.normalizeDomain (Router.hostnameOf url)))), []) := by
  intro url env h
  simp only [Router.routeAndScrape, h]

/-- Instantiation of `unregistered_domain_no_navigation` on an
unregistered domain. -/
theorem unregistered_domain_no_navigation_witness :
    Router.routeAndScrape (lc "https://unknownsite.test/p") Fixtures.routerEnvOk =
      (Except.error (Router.routerErrorMessage (lc "https://unknownsite.test/p")
          (Router.normalizeDomain (Router.hostnameOf (lc "https://unknownsite.test/p")))
          (Router.unregisteredDomainMessage
            (Router.normalizeDomain (Router.hostnameOf (lc "https://unknownsite.test/p"))))), []) :=
  unregistered_domain_no_navigation (lc "https://unknownsite.test/p")
    Fixtures.routerEnvOk (by decide)

end Wishly

namespace Wishly

/-- C8: `routeAndScrape` never swallows a failure and always releases
its page: on every path the page-lifecycle trace balances (every page
it opens is closed, on the success path and on every failure path), and
each failing step rethrows *its own* error annotated with the request's
url and normalized domain — a registry miss yields the annotated
unregistered-domain error with no page events; after a class is
selected, a failing navigation, a throwing scraper constructor and a
failing scrape each produce exactly the annotated form of their own
message with the page opened, navigated and closed; and the success
path closes the page and returns the scraped product unchanged. -/
theorem router_error_propagation :
    ∀ (url : LStr) (env : Router.RouterEnv),
      ((Router.routeAndScrape url env).2.count Router.RouterEv.pageOpen
        = (Router.routeAndScrape url env).2.count Router.RouterEv.pageClose)
      ∧ (Router.lookupRegistry (Router.normalizeDomain (Router.hostnameOf url)) = none →
          Router.routeAndScrape url env
            = (Except.error (Router.routerErrorMessage url
                (Router.normalizeDomain (Router.hostnameOf url))
                (Router.unregisteredDomainMessage
                  (Router.normalizeDomain (Router.hostnameOf url)))), []))
      ∧ (∀ cls : Router.ScraperCls,
          Router.lookupRegistry (Router.normalizeDomain (Router.hostnameOf url)) = some cls →
          (∀ m : LStr, env.navResult = Except.error m →
            Router.routeAndScrape url env
              = (Except.error (Router.routerErrorMessage url
                  (Router.normalizeDomain (Router.hostnameOf url)) m),
                 [Router.RouterEv.pageOpen, Router.RouterEv.navigate, Router.RouterEv.pageClose]))
          ∧ (∀ m : LStr, env.navResult = Except.ok () →
              Router.mkScraper cls env.pageHtml url (Router.routerPageArg url cls)
                = Except.error m →
              Router.routeAndScrape url env
                = (Except.error (Router.routerErrorMessage url
                    (Router.normalizeDomain (Router.hostnameOf url)) m),
                   [Router.RouterEv.pageOpen, Router.RouterEv.navigate, Router.RouterEv.pageClose]))
          ∧ (∀ (inst : Router.ScraperInstance) (m : LStr), env.navResult = Except.ok () →
              Router.mkScraper cls env.pageHtml url (Router.routerPageArg url cls)
                = Except.ok inst →
              env.scrapeResult = Except.error m →
              Router.routeAndScrape url env
                = (Except.error (Router.routerErrorMessage url
                    (Router.normalizeDomain (Router.hostnameOf url)) m),
                   [Router.RouterEv.pageOpen, Router.RouterEv.navigate, Router.RouterEv.pageClose]))
          ∧ (∀ (inst : Router.ScraperInstance) (p : Scrapers.ScrapedProduct),
              env.navResult = Except.ok () →
              Router.mkScraper cls env.pageHtml url (Router.routerPageArg url cls)
                = Except.ok inst →
              env.scrapeResult = Except.ok p →
              Router.routeAndScrape url env
                = (Except.ok p,
                   [Router.RouterEv.pageOpen, Router.RouterEv.navigate,
                    Router.RouterEv.pageClose]))) := by
  intro url env
  refine ⟨?_, ?_, ?_⟩
  · simp only [Router.routeAndScrape]
    split
    · rfl
    · split
      · rfl
      · split
        · rfl
        · split
          · rfl
          · rfl
  · intro hlk
    simp only [Router.routeAndScrape, hlk]
  · intro cls hlk
    refine ⟨?_, ?_, ?_, ?_⟩
    · intro m hnav
      simp only [Router.routeAndScrape, hlk, hnav]
    · intro m hnav hmk
      simp only [Router.routeAndScrape, hlk, hnav, hmk]
    · intro inst m hnav hmk hsc
      simp only [Router.routeAndScrape, hlk, hnav, hmk, hsc]
    · intro inst p hnav hmk hsc
      simp only [Router.routeAndScrape, hlk, hnav, hmk, hsc]

/-- Instantiation of `router_error_propagation` on two real failure
paths: a `ralphlauren.co.uk` URL (registry hit, but the JS-heavy
substring test against `ralphlauren.com` fails, so the constructor
receives `null` and throws) and a registered static domain whose scrape
step throws `boom`. -/
theorem router_error_propagation_witness :
    Router.routeAndScrape (lc "https://www.ralphlauren.co.uk/p") Fixtures.routerEnvOk
      = (Except.error (Router.routerErrorMessage (lc "https://www.ralphlauren.co.uk/p")
          (Router.normalizeDomain (Router.hostnameOf (lc "https://www.ralphlauren.co.uk/p")))
          (lc "Ralph Lauren scraper requires a Puppeteer page instance.")),
         [Router.RouterEv.pageOpen, Router.RouterEv.navigate, Router.RouterEv.pageClose])
    ∧ Router.routeAndScrape (lc "https://www.etsy.com/listing/1") Fixtures.routerEnvScrapeFail
      = (Except.error (Router.routerErrorMessage (lc "https://www.etsy.com/listing/1")
          (Router.normalizeDomain (Router.hostnameOf (lc "https://www.etsy.com/listing/1")))
          (lc "boom")),
         [Router.RouterEv.pageOpen, Router.RouterEv.navigate, Router.RouterEv.pageClose]) :=
  ⟨((router_error_propagation (lc "https://www.ralphlauren.co.uk/p")
        Fixtures.routerEnvOk).2.2 Router.ScraperCls.ralphLauren (by decide)).2.1
      (lc "Ralph Lauren scraper requires a Puppeteer page instance.") rfl rfl,
   ((router_error_propagation (lc "https://www.etsy.com/listing/1")
        Fixtures.routerEnvScrapeFail).2.2 Router.ScraperCls.etsy (by decide)).2.2.1
      { cls := Router.ScraperCls.etsy
      , html := Fixtures.routerEnvScrapeFail.pageHtml
      , url := lc "https://www.etsy.com/listing/1"
      , page := Router.routerPageArg (lc "https://www.etsy.com/listing/1")
          Router.ScraperCls.etsy }
      (lc "boom") rfl rfl rfl⟩

/-- C10: the dynamic-only scraper constructors reject a `null` page at
construction time — `ZaraScraper` and `AmazonScraper` throw immediately —
and the page argument the router passes is a live page exactly when the
site is classified JavaScript-heavy or the selected class is the Amazon
scraper. -/
theorem dynamic_constructor_guard :
    (∀ html url : LStr, Router.mkScraper Router.ScraperCls.zara html url none
        = Except.error (lc "Zara scraper requires a Puppeteer page instance."))
    ∧ (∀ html url : LStr, Router.mkScraper Router.ScraperCls.amazon html url none
        = Except.error (lc "Amazon scraper requires a Puppeteer page instance."))
    ∧ (∀ (url : LStr) (cls : Router.ScraperCls),
        (Router.routerPageArg url cls).isSome
          = (Router.isJavaScriptHeavySite url || cls == Router.ScraperCls.amazon)) := by
  refine ⟨fun html url => rfl, fun html url => rfl, ?_⟩
  intro url cls
  simp only [Router.routerPageArg]
  split
  · next h => simp [h]
  · next h => simp [Bool.eq_false_iff.mpr h]

end Wishly

namespace Wishly

/-- Replacing the found item under `Map.set`-style update: the lookup
after the map finds the replacement. -/
theorem find?_map_replace {items : List Worker.Item} {id : ℕ} {it it' : Worker.Item}
    (hfind : items.find? (fun j => j.id == id) = some it) (hid : it'.id = id) :
    (items.map (fun j => if (j.id == id) = true then it' else j)).find?
      (fun j => j.id == id) = some it' := by
  induction items with
  | nil => simp at hfind
  | cons a rest ih =>
    by_cases ha : (a.id == id) = true
    · simp only [List.map_cons, if_pos ha]
      rw [@List.find?_cons_of_pos _ (fun j => j.id == id) it' _ (by simp [hid])]
    · rw [@List.find?_cons_of_neg _ (fun j => j.id == id) a rest ha] at hfind
      simp only [List.map_cons, if_neg ha]
      rw [@List.find?_cons_of_neg _ (fun j => j.id == id) a
        (rest.map (fun j => if (j.id == id) = true then it' else j)) ha]
      exact ih hfind

end Wishly

namespace Wishly

/-- C1 (counterexample): a pending item with a stale `lastCheckError` and
stored price 1000 is scraped successfully at price 500.  The claim says
`lastCheckError` is cleared and exactly one price-history row is
appended; the code leaves the stale error in place (the success updates
carry no `lastCheckError` key) and appends *two* rows — one from the
worker, one from `MemStorage.updateItem`'s price-change hook. -/
theorem worker_success_counterexample :
    ((Worker.getItemById (Worker.workerIteration Fixtures.sampleStore
        (Except.ok Fixtures.sampleProduct) 1) 1).map (fun it => it.lastCheckError)
      = some (some (lc "previous error")))
    ∧ (Worker.workerIteration Fixtures.sampleStore
        (Except.ok Fixtures.sampleProduct) 1).priceHistory.length = 2 := by
  constructor
  · decide
  · decide

end Wishly

namespace Wishly

/-- Adding a history row does not change the item table. -/
theorem getItemById_addPriceHistory (st : Worker.Store) (e : Worker.PriceHistoryEntry) (id : ℕ) :
    Worker.getItemById (Worker.addPriceHistory st e) id = Worker.getItemById st id := rfl

/-- C1 (amended): a successful worker iteration moves the picked pending
item to `processed`, overwrites the mirrored fields with the scraped
values, and leaves `lastCheckError` unchanged (it is not cleared); the
number of appended price-history rows is 0 when the scrape produced no
price, 1 when the scraped price equals the stored one, and 2 when it
differs (one row from the worker, one from the storage's price-change
hook). -/
theorem worker_success_transition :
    ∀ (st : Worker.Store) (it : Worker.Item) (sd : Scrapers.ScrapedProduct) (now : ℕ),
      Worker.getNextItemToScrape st = some it →
      Worker.getItemById st it.id = some it →
      ∃ it' : Worker.Item,
        Worker.getItemById (Worker.workerIteration st (Except.ok sd) now) it.id = some it'
        ∧ it'.status = lc "processed"
        ∧ it'.lastCheckError = it.lastCheckError
        ∧ it'.name = some sd.name
        ∧ it'.price = sd.priceInfo.map (fun pi => pi.price)
        ∧ it'.inStock = some sd.inStock
        ∧ (Worker.workerIteration st (Except.ok sd) now).priceHistory.length
            = st.priceHistory.length
              + (match sd.priceInfo with
                 | none => 0
                 | some pi => if it.price = some pi.price then 1 else 2) := by
  intro st it sd now hnext hid
  refine ⟨Worker.applyUpdates it (Worker.processedUpdates sd now), ?_⟩
  simp only [Worker.workerIteration, hnext]
  cases hpi : sd.priceInfo with
  | none =>
    simp only [Worker.updateScrapedItem, hpi]
    simp only [Worker.updateItem, hid]
    simp only [Worker.processedUpdates, hpi, Option.map_none']
    refine ⟨?_, rfl, ?_, ?_, ?_, ?_, ?_⟩
    · exact find?_map_replace hid rfl
    · simp [Worker.applyUpdates, Worker.processedUpdates]
    · simp [Worker.applyUpdates, Worker.processedUpdates]
    · simp [Worker.applyUpdates, Worker.processedUpdates, hpi]
    · simp [Worker.applyUpdates, Worker.processedUpdates]
    · simp
  | some pi =>
    simp only [Worker.updateScrapedItem, hpi]
    simp only [Worker.updateItem, getItemById_addPriceHistory, hid]
    simp only [Worker.processedUpdates, hpi, Option.map_some']
    by_cases hp : it.price = some pi.price
    · rw [if_neg (by simp [hp])]
      refine ⟨?_, rfl, ?_, ?_, ?_, ?_, ?_⟩
      · exact find?_map_replace hid rfl
      · simp [Worker.applyUpdates, Worker.processedUpdates]
      · simp [Worker.applyUpdates, Worker.processedUpdates]
      · simp [Worker.applyUpdates, Worker.processedUpdates, hpi]
      · simp [Worker.applyUpdates, Worker.processedUpdates]
      · simp [Worker.addPriceHistory, hp]
    · rw [if_pos (by simp [hp])]
      refine ⟨?_, rfl, ?_, ?_, ?_, ?_, ?_⟩
      · exact find?_map_replace hid rfl
      · simp [Worker.applyUpdates, Worker.processedUpdates]
      · simp [Worker.applyUpdates, Worker.processedUpdates]
      · simp [Worker.applyUpdates, Worker.processedUpdates, hpi]
      · simp [Worker.applyUpdates, Worker.processedUpdates]
      · simp [Worker.addPriceHistory, hp]

end Wishly

namespace Wishly

/-- Instantiation of `worker_success_transition` on the sample store:
status becomes `processed`, the stale error survives, two rows appear
(the scraped price 500 differs from the stored 1000). -/
theorem worker_success_transition_witness :
    ∃ it' : Worker.Item,
      Worker.getItemById (Worker.workerIteration Fixtures.sampleStore
          (Except.ok Fixtures.sampleProduct) 1) Fixtures.samplePendingItem.id = some it'
      ∧ it'.status = lc "processed"
      ∧ it'.lastCheckError = Fixtures.samplePendingItem.lastCheckError
      ∧ it'.name = some Fixtures.sampleProduct.name
      ∧ it'.price = Fixtures.sampleProduct.priceInfo.map (fun pi => pi.price)
      ∧ it'.inStock = some Fixtures.sampleProduct.inStock
      ∧ (Worker.workerIteration Fixtures.sampleStore
          (Except.ok Fixtures.sampleProduct) 1).priceHistory.length
          = Fixtures.sampleStore.priceHistory.length
            + (match Fixtures.sampleProduct.priceInfo with
               | none => 0
               | some pi => if Fixtures.samplePendingItem.price = some pi.price then 1 else 2) :=
  worker_success_transition Fixtures.sampleStore Fixtures.samplePendingItem
    Fixtures.sampleProduct 1 (by decide) (by decide)

/-- C2: a failed worker iteration classifies the error by its message:
a not-found message (contains `404` or `not found`) moves the picked
pending item to `link_dead` with `inStock := false`; any other message
moves it to `failed` with `lastCheckError` set to that message.  In both
cases the stored price, images and sizes are untouched and no
price-history row is appended. -/
theorem worker_failure_transition :
    ∀ (st : Worker.Store) (it : Worker.Item) (msg : LStr) (now : ℕ),
      Worker.getNextItemToScrape st = some it →
      Worker.getItemById st it.id = some it →
      (Worker.workerIteration st (Except.error msg) now).priceHistory = st.priceHistory
      ∧ ∃ it' : Worker.Item,
        Worker.getItemById (Worker.workerIteration st (Except.error msg) now) it.id = some it'
        ∧ (Worker.isNotFoundMessage msg = true →
            it'.status = lc "link_dead" ∧ it'.inStock = some false
            ∧ it'.lastCheckError = some (lc "Product not found (404)"))
        ∧ (Worker.isNotFoundMessage msg = false →
            it'.status = lc "failed" ∧ it'.inStock = it.inStock
            ∧ it'.lastCheckError = some msg)
        ∧ it'.price = it.price
        ∧ it'.images = it.images
        ∧ it'.availableSizes = it.availableSizes := by
  intro st it msg now hnext hid
  cases hnf : Worker.isNotFoundMessage msg with
  | true =>
    constructor
    · simp only [Worker.workerIteration, hnext, hnf, eq_self_iff_true, if_true]
      simp only [Worker.updateScrapedItem, Worker.updateItem, hid]
      simp only [Worker.linkDeadUpdates]
    · refine ⟨Worker.applyUpdates it (Worker.linkDeadUpdates now), ?_, ?_, ?_, ?_, ?_, ?_⟩
      · simp only [Worker.workerIteration, hnext, hnf, eq_self_iff_true, if_true]
        simp only [Worker.updateScrapedItem, Worker.updateItem, hid]
        exact find?_map_replace hid rfl
      · intro _
        exact ⟨rfl, rfl, rfl⟩
      · intro hc
        exact absurd hc (by simp)
      · rfl
      · rfl
      · rfl
  | false =>
    constructor
    · simp only [Worker.workerIteration, hnext, hnf]
      simp only [Bool.false_eq_true, if_false]
      simp only [Worker.updateScrapedItem, Worker.updateItem, hid]
      simp only [Worker.failedUpdates]
    · refine ⟨Worker.applyUpdates it (Worker.failedUpdates msg now), ?_, ?_, ?_, ?_, ?_, ?_⟩
      · simp only [Worker.workerIteration, hnext, hnf]
        simp only [Bool.false_eq_true, if_false]
        simp only [Worker.updateScrapedItem, Worker.updateItem, hid]
        exact find?_map_replace hid rfl
      · intro hc
        exact absurd hc (by simp)
      · intro _
        exact ⟨rfl, rfl, rfl⟩
      · rfl
      · rfl
      · rfl

/-- Instantiation of `worker_failure_transition` on the sample store with
the generic error message `boom`. -/
theorem worker_failure_transition_witness :
    (Worker.workerIteration Fixtures.sampleStore (Except.error (lc "boom")) 1).priceHistory
      = Fixtures.sampleStore.priceHistory
    ∧ ∃ it' : Worker.Item,
      Worker.getItemById (Worker.workerIteration Fixtures.sampleStore
          (Except.error (lc "boom")) 1) Fixtures.samplePendingItem.id = some it'
      ∧ (Worker.isNotFoundMessage (lc "boom") = true →
          it'.status = lc "link_dead" ∧ it'.inStock = some false
          ∧ it'.lastCheckError = some (lc "Product not found (404)"))
      ∧ (Worker.isNotFoundMessage (lc "boom") = false →
          it'.status = lc "failed" ∧ it'.inStock = Fixtures.samplePendingItem.inStock
          ∧ it'.lastCheckError = some (lc "boom"))
      ∧ it'.price = Fixtures.samplePendingItem.price
      ∧ it'.images = Fixtures.samplePendingItem.images
      ∧ it'.availableSizes = Fixtures.samplePendingItem.availableSizes :=
  worker_failure_transition Fixtures.sampleStore Fixtures.samplePendingItem
    (lc "boom") 1 (by decide) (by decide)

end Wishly

namespace Wishly

/-- C9 (counterexample): for a zara.com URL, `scrapeProductFromUrl`
launches a headless-browser session (it attempts `scrapeWithPuppeteer`
first), so the entry point is not static-only as claimed. -/
theorem static_entrypoint_counterexample :
    (Scraper.scrapeProductFromUrl (lc "https://www.zara.com/item") Fixtures.fetchEnvOk).2 = true
    ∧ Scraper.isJavaScriptHeavySite (lc "https://www.zara.com/item") = true := by
  constructor
  · decide
  · decide

/-- C9 (amended): `scrapeProductFromUrl` uses the plain-fetch cheerio
path for every URL outside the JavaScript-heavy list (and for those it
never opens a browser); for JavaScript-heavy URLs it first attempts a
headless-browser session, falling back to the plain fetch when that
fails.  In every case the product it returns was assembled by the
generic extraction (`processScrapedData` or `scrapeWithCheerio`), never
by a site-specific extractor variant. -/
theorem static_entrypoint_amended :
    ∀ (url : LStr) (env : Scraper.FetchEnv),
      (Scraper.isJavaScriptHeavySite url = false →
        Scraper.scrapeProductFromUrl url env
          = (Scraper.scrapeFromUrlCatch (Scraper.scrapeWithCheerioRun env), false))
      ∧ (Scraper.isJavaScriptHeavySite url = true →
        (Scraper.scrapeProductFromUrl url env).2 = true)
      ∧ (∀ p : Scraper.ScrapedProduct,
          (Scraper.scrapeProductFromUrl url env).1 = Except.ok p →
          (∃ raw, env.puppeteerRaw = Except.ok raw ∧ p = Scraper.processScrapedData raw)
          ∨ (∃ raw, env.cheerioRaw = Except.ok raw ∧ p = Scraper.scrapeWithCheerioResult raw)) := by
  intro url env
  refine ⟨?_, ?_, ?_⟩
  · intro h
    simp [Scraper.scrapeProductFromUrl, h]
  · intro h
    simp only [Scraper.scrapeProductFromUrl, h, if_true]
    cases hp : env.puppeteerRaw with
    | ok raw => rfl
    | error m => rfl
  · intro p hP
    by_cases hj : Scraper.isJavaScriptHeavySite url = true
    · simp only [Scraper.scrapeProductFromUrl, hj, if_true] at hP
      cases hp : env.puppeteerRaw with
      | ok raw =>
        rw [hp] at hP
        simp only [Scraper.scrapeFromUrlCatch] at hP
        injection hP with h
        exact Or.inl ⟨raw, rfl, h.symm⟩
      | error m =>
        rw [hp] at hP
        cases hc : env.cheerioRaw with
        | ok raw =>
          simp only [Scraper.scrapeWithCheerioRun, hc, Scraper.scrapeFromUrlCatch] at hP
          injection hP with h
          exact Or.inr ⟨raw, rfl, h.symm⟩
        | error m2 =>
          simp only [Scraper.scrapeWithCheerioRun, hc, Scraper.scrapeFromUrlCatch] at hP
          split at hP <;> simp at hP
    · have hjf : Scraper.isJavaScriptHeavySite url = false := Bool.eq_false_iff.mpr hj
      simp only [Scraper.scrapeProductFromUrl, hjf, Bool.false_eq_true, if_false] at hP
      cases hc : env.cheerioRaw with
      | ok raw =>
        simp only [Scraper.scrapeWithCheerioRun, hc, Scraper.scrapeFromUrlCatch] at hP
        injection hP with h
        exact Or.inr ⟨raw, rfl, h.symm⟩
      | error m2 =>
        simp only [Scraper.scrapeWithCheerioRun, hc, Scraper.scrapeFromUrlCatch] at hP
        split at hP <;> simp at hP

/-- Instantiation of `static_entrypoint_amended` on a non-heavy URL and
on a heavy one. -/
theorem static_entrypoint_amended_witness :
    Scraper.scrapeProductFromUrl (lc "https://example.com/p") Fixtures.fetchEnvOk
      = (Scraper.scrapeFromUrlCatch (Scraper.scrapeWithCheerioRun Fixtures.fetchEnvOk), false)
    ∧ (Scraper.scrapeProductFromUrl (lc "https://www.zara.com/item") Fixtures.fetchEnvOk).2 = true :=
  ⟨(static_entrypoint_amended (lc "https://example.com/p") Fixtures.fetchEnvOk).1 (by decide),
   (static_entrypoint_amended (lc "https://www.zara.com/item") Fixtures.fetchEnvOk).2.1 (by decide)⟩

end Wishly
